import Mathlib

/-
Verification of the limpid binary-bloat comparison engine.

This file gives a shallow embedding of the report generation pipeline
(src/limpid/src/report.rs, generate_reports), the numeric formatting
helpers (format_bytes, fmt_thousands, fmt_duration in report.rs and
format_bytes, format_size_diff, format_size_diff_md in main.rs), the
crate attribution helper (extract_crate_from_function in main_old.rs)
and the command line scanning loop of main (main.rs), and proves the
testable properties stated for them.

Modelling conventions:
- Rust machine integers are modelled as Nat and Int.  Differences of
  u64 and usize quantities are exact Int subtractions, matching the
  two-complement result because all quantities stay far below 2^62.
- f64 values are modelled as exact rationals.  Every IEEE double is a
  rational number; the operations the source performs on them
  (comparison, fmod of nonnegative operands, and division by the
  powers of two 1024, 2^10, 2^20, 2^30) are exact in IEEE semantics,
  so the rational model agrees with the hardware for them.  The
  conversion from u64 to f64 rounds to 53 significant bits, which the
  model performs explicitly (roundF64).  Fixed precision rendering
  rounds half to even as the Rust formatter does.
- BTreeMap and BTreeSet are modelled as key sorted association lists
  and sorted deduplicated lists; the stable slice sort is modelled by
  Mathlib insertion sort, which is stable for the same comparator,
  and a stable sort result is unique, so the two agree.
- BuildContext comes from the external substance crate whose source is
  not part of this repository; its shape is modelled from the spec
  (sections 3 and 4.5): a crate list, the deps symbol set, the text
  size, the all_symbols and all_llvm_functions views (name keyed
  maps), the total IR line count and the wall clock duration.
-/

namespace Limpid

/-! ## Sorted association lists: model of BTreeMap with String keys -/

/-- Lexicographic comparison of character lists, the order Ord on String
uses (bytewise comparison of the UTF-8 encoding coincides with it).  Written
as a boolean function so that every map and set operation evaluates inside
the kernel. -/
def lexLt : List Char → List Char → Bool
  | [], [] => false
  | [], _ :: _ => true
  | _ :: _, [] => false
  | a :: as, b :: bs => if a < b then true else if a = b then lexLt as bs else false

/-- Lexicographic strict order on strings as a boolean function. -/
def strLt (a b : String) : Bool := lexLt a.data b.data

/-- Insertion into a key sorted association list, replacing the value on an
existing key.  Models BTreeMap insert. -/
def mapInsert {V : Type} : List (String × V) → String → V → List (String × V)
  | [], k, v => [(k, v)]
  | p :: t, k, v =>
    if strLt k p.1 then (k, v) :: p :: t
    else if k = p.1 then (k, v) :: t
    else p :: mapInsert t k v

/-- Build a map from a list of entries by repeated insertion, later entries
winning.  Models collecting into a BTreeMap with a for loop. -/
def buildMap {V : Type} (l : List (String × V)) : List (String × V) :=
  l.foldl (fun m p => mapInsert m p.1 p.2) []

/-- Lookup in an association list (first matching key).  Models BTreeMap get. -/
def lookupA {V : Type} : List (String × V) → String → Option V
  | [], _ => none
  | p :: t, k => if k = p.1 then some p.2 else lookupA t k

/-- Key list of an association list. -/
def mapKeys {V : Type} (m : List (String × V)) : List String := m.map Prod.fst

/-- Value of the last entry of the list carrying a given key, used to state
what buildMap computes. -/
def lastAssoc {V : Type} : List (String × V) → String → Option V
  | [], _ => none
  | p :: t, k =>
    match lastAssoc t k with
    | some v => some v
    | none => if k = p.1 then some p.2 else none

/-! ## Sorted deduplicated lists: model of BTreeSet with String elements -/

/-- Insertion into a sorted deduplicated list.  Models BTreeSet insert. -/
def setInsert : List String → String → List String
  | [], k => [k]
  | a :: t, k =>
    if strLt k a then k :: a :: t
    else if k = a then a :: t
    else a :: setInsert t k

/-- Collect a list of strings into a sorted deduplicated list.  Models
extending a BTreeSet with an iterator. -/
def setOfList (l : List String) : List String := l.foldl setInsert []

/-! ## Stable sorting by descending absolute delta

The source sorts with sort_by_key(Reverse(abs)), a stable sort.  Mathlib
insertion sort with the reflexive comparator (key of the second argument is
at most the key of the first) is stable in the same sense: an element is
inserted after every earlier element with an equal key.  Since any two
stable sorts for the same total preorder produce the same list, this is a
faithful model of the Rust stable sort. -/

/-- Stable sort by descending key.  Models sort_by_key with Reverse(key). -/
def sortByKeyDesc {α : Type} (key : α → ℕ) (l : List α) : List α :=
  List.insertionSort (fun a b => key b ≤ key a) l

/-! ## Decimal digit rendering

Rust renders integers in decimal; natToString is the decimal rendering of a
natural number, by repeated division (fuel based so that it computes in the
kernel). -/

/-- Auxiliary decimal rendering with fuel, most significant digit first. -/
def natToDigitsGo : ℕ → ℕ → List Char
  | 0, _ => []
  | f + 1, n =>
    if n < 10 then [Nat.digitChar n]
    else natToDigitsGo f (n / 10) ++ [Nat.digitChar (n % 10)]

/-- Decimal rendering of a natural number, e.g. 1536 to the string 1536. -/
def natToString (n : ℕ) : String := ⟨natToDigitsGo (n + 1) n⟩

/-- Pad a character list on the left with zeros up to the given length. -/
def padZeros (s : List Char) (len : ℕ) : List Char :=
  List.replicate (len - s.length) '0' ++ s

/-! ## Fixed precision rendering of rationals, modelling Rust float formatting -/

/-- Round a rational to the nearest integer, ties to even: the rounding the
Rust float formatter applies at a given precision. -/
def roundHalfEven (q : ℚ) : ℤ :=
  if q - ⌊q⌋ < 1 / 2 then ⌊q⌋
  else if 1 / 2 < q - ⌊q⌋ then ⌊q⌋ + 1
  else if ⌊q⌋ % 2 = 0 then ⌊q⌋ else ⌊q⌋ + 1

/-- Fixed precision decimal rendering of a rational: the model of the Rust
format specifier with a precision, e.g. precision 2 turning 3.5 into 3.50.
With precision 0 no decimal point is printed. -/
def fmtFixed (q : ℚ) (prec : ℕ) : String :=
  let m := (roundHalfEven (|q| * 10 ^ prec)).toNat
  let ip := m / 10 ^ prec
  let fp := m % 10 ^ prec
  (if q < 0 then "-" else "") ++ natToString ip ++
    (if prec = 0 then "" else "." ++ String.mk (padZeros (natToString fp).data prec))

/-- Conversion of a u64 to f64 as a rational: exact below 2^53, otherwise
rounded to 53 significant bits (ties to even), as IEEE conversion does. -/
def roundF64 (b : ℕ) : ℚ :=
  if b < 2 ^ 53 then (b : ℚ)
  else
    let s := Nat.log2 b - 52
    (roundHalfEven ((b : ℚ) / 2 ^ s) : ℚ) * 2 ^ s

/-! ## Numeric formatting helpers of report.rs -/

/-- Unit names of format_bytes in report.rs. -/
def unitsList : List String := ["B", "KB", "MB", "GB", "TB"]

/-- The division loop of format_bytes: divide by 1024 while the size is at
least 1024 and the unit index is below 4.  The fuel argument is 4 minus the
current unit index, so fuel 4 with unit 0 models the source loop exactly.
Division of an f64 by 1024 is exact, so rational division is faithful. -/
def formatBytesLoop : ℕ → ℚ → ℕ → ℚ × ℕ
  | 0, size, unit => (size, unit)
  | f + 1, size, unit =>
    if 1024 ≤ size then formatBytesLoop f (size / 1024) (unit + 1) else (size, unit)

/-- Model of format_bytes in report.rs: binary units B, KB, MB, GB, TB with
divisor 1024; integers below 1024 are printed without decimals, larger
values with one decimal. -/
def format_bytes (b : ℕ) : String :=
  let p := formatBytesLoop 4 (roundF64 b) 0
  if p.2 = 0 then natToString b ++ " B"
  else fmtFixed p.1 1 ++ " " ++ (unitsList.getD p.2 "")

/-- The accumulation loop of fmt_thousands: walk the reversed digit list,
emitting a comma before every position that is a positive multiple of 3. -/
def thousandsGo : ℕ → List Char → List Char
  | _, [] => []
  | i, c :: t => (if i ≠ 0 ∧ i % 3 = 0 then [','] else []) ++ c :: thousandsGo (i + 1) t

/-- Model of fmt_thousands in report.rs: decimal rendering of the absolute
value with a comma every three digits from the right, and a leading minus
for negative input.  The Rust source calls abs on an isize, which is
modelled as the mathematical absolute value (the argument never equals the
minimal machine integer in the program). -/
def fmt_thousands (n : ℤ) : String :=
  let s := (natToString n.natAbs).data
  let formatted := (thousandsGo 0 s.reverse).reverse
  if n < 0 then "-" ++ String.mk formatted else String.mk formatted

/-- Chunks of three from the front of a list. -/
def chunk3 : List Char → List (List Char)
  | [] => []
  | [a] => [[a]]
  | [a, b] => [[a, b]]
  | a :: b :: c :: t => [a, b, c] :: chunk3 t

/-- Join character groups with comma separators. -/
def joinComma : List (List Char) → List Char
  | [] => []
  | [x] => x
  | x :: y :: t => x ++ ',' :: joinComma (y :: t)

/-- Modelled from the spec: counts are rendered with thousands separators,
a comma inserted every three digits from the right, with a leading minus
for negative inputs.  Stated independently of the source loop so that the
claim about fmt_thousands is an equivalence of two formulations. -/
def spec_thousands (n : ℤ) : String :=
  let ds := (natToString n.natAbs).data
  let grouped := ((chunk3 ds.reverse).map List.reverse).reverse
  (if n < 0 then "-" else "") ++ String.mk (joinComma grouped)

/-- Exact remainder for nonnegative rationals: models the f64 remainder
operator, which is exact, for the nonnegative operands the source uses. -/
def ratMod (a b : ℚ) : ℚ := a - b * ⌊a / b⌋

/-- Model of fmt_duration in report.rs: seconds with two decimals below one
minute, minutes and seconds below one hour, hours and minutes and seconds
above.  Seconds come from Duration::as_secs_f64 and are nonnegative. -/
def fmt_duration (secs : ℚ) : String :=
  if secs < 60 then fmtFixed secs 2 ++ " s"
  else if secs < 3600 then
    fmtFixed (⌊secs / 60⌋ : ℚ) 0 ++ "m " ++ fmtFixed (ratMod secs 60) 1 ++ "s"
  else
    fmtFixed (⌊secs / 3600⌋ : ℚ) 0 ++ "h " ++ fmtFixed (⌊ratMod secs 3600 / 60⌋ : ℚ) 0 ++ "m " ++
      fmtFixed (ratMod secs 60) 0 ++ "s"

/-- Unit selected by format_bytes for an input of at least 1024, stated from
the spec thresholds, for use in the formatting theorem. -/
def bytesUnit (b : ℕ) : String :=
  if b < 1024 ^ 2 then "KB"
  else if b < 1024 ^ 3 then "MB"
  else if b < 1024 ^ 4 then "GB"
  else "TB"

/-! ## Formatting helpers of main.rs -/

/-- Model of format_bytes in main.rs: binary units with two decimals and
KiB, MiB, GiB names.  Division by a power of two is exact on f64. -/
def main_format_bytes (b : ℕ) : String :=
  if 2 ^ 30 ≤ b then fmtFixed (roundF64 b / 2 ^ 30) 2 ++ " GiB"
  else if 2 ^ 20 ≤ b then fmtFixed (roundF64 b / 2 ^ 20) 2 ++ " MiB"
  else if 2 ^ 10 ≤ b then fmtFixed (roundF64 b / 2 ^ 10) 2 ++ " KiB"
  else natToString b ++ " B"

/-- ANSI SGR colour wrapper, modelling the terminal colouring calls. -/
def ansiWrap (code : String) (s : String) : String :=
  "\x1b[" ++ code ++ "m" ++ s ++ "\x1b[0m"

/-- Model of i64::abs with wraparound semantics: the absolute value of the
minimal i64 is not representable and wraps back to itself. -/
def absI64 (n : ℤ) : ℤ := if n = -(2 ^ 63) then n else |n|

/-- Model of u64::try_from on an i64: fails exactly on negative input. -/
def i64ToU64 (n : ℤ) : Option ℕ := if 0 ≤ n then some n.toNat else none

/-- Model of format_size_diff_md in main.rs: the absolute value of the
difference is converted to u64, falling back to the default 0 on failure,
formatted, and prefixed with the sign; zero renders as no change. -/
def format_size_diff_md (n : ℤ) : String :=
  let f := main_format_bytes ((i64ToU64 (absI64 n)).getD 0)
  if 0 < n then "+" ++ f
  else if n < 0 then "-" ++ f
  else "no change"

/-- Model of format_size_diff in main.rs: as format_size_diff_md but with
terminal colours (red for growth, green for shrinkage, dim for no change). -/
def format_size_diff (n : ℤ) : String :=
  let f := main_format_bytes ((i64ToU64 (absI64 n)).getD 0)
  if 0 < n then ansiWrap "31" ("+" ++ f)
  else if n < 0 then ansiWrap "32" ("-" ++ f)
  else ansiWrap "90" "no change"

/-! ## Crate attribution: extract_crate_from_function of main_old.rs

Strings are handled through their character lists; byte indices of the Rust
find calls correspond to character indices since slicing always happens at
match boundaries.  The Unicode character classes of the source (numeric,
alphanumeric, uppercase) are modelled by the corresponding ASCII classes,
which agree on every symbol name the program handles. -/

/-- Index of the first occurrence of a pattern in a character list, models
str::find with a string pattern. -/
def firstIndexOf : List Char → List Char → Option ℕ
  | [], pat => if pat.isEmpty then some 0 else none
  | c :: t, pat =>
    if pat.isPrefixOf (c :: t) then some 0 else (firstIndexOf t pat).map (· + 1)

/-- Split at every occurrence of a double colon, models str::split with
pattern two colons: the accumulator holds the current segment reversed. -/
def splitColonsAux : List Char → List Char → List (List Char)
  | acc, [] => [acc.reverse]
  | acc, ':' :: ':' :: t => acc.reverse :: splitColonsAux [] t
  | acc, c :: t => splitColonsAux (c :: acc) t

/-- Split a character list on double colons; never returns the empty list. -/
def splitColons (l : List Char) : List (List Char) := splitColonsAux [] l

/-- The standard library crate names recognised by the attributor. -/
def stdCrates : List (List Char) :=
  ["core".data, "alloc".data, "std".data, "proc_macro".data, "test".data]

/-- Membership in the standard library crate set. -/
def isStdCrate (p : List Char) : Bool := stdCrates.contains p

/-- The known crate pattern of the attributor: nonempty, not starting with
an angle bracket or underscore, not all digits, and all characters
alphanumeric or underscore. -/
def identLike (p : List Char) : Bool :=
  !p.isEmpty && !(p.head? == some '<') && !(p.head? == some '_') &&
    !(p.all Char.isDigit) && p.all (fun c => c.isAlphanum || c == '_')

/-- The fallback loop condition: the known crate pattern and additionally
not starting with an uppercase letter. -/
def loopCandidate (p : List Char) : Bool :=
  identLike p && !((p.head?.map Char.isUpper).getD false)

/-- The cleaning phase of extract_crate_from_function: for names starting
with an angle bracket, take the path after the as keyword up to the closing
angle bracket; otherwise for other generic patterns take everything after
the first space; otherwise the name itself. -/
def cleanedName (s : String) : List Char :=
  let l := s.data
  if l.head? = some '<' then
    match firstIndexOf l " as ".data with
    | some i =>
      let afterAs := l.drop (i + 4)
      match firstIndexOf afterAs ">::".data with
      | some j => afterAs.take j
      | none =>
        match firstIndexOf afterAs ">".data with
        | some j => afterAs.take j
        | none => afterAs
    | none =>
      match firstIndexOf l " ".data with
      | some j => l.drop (j + 1)
      | none => l
  else l

/-- Model of extract_crate_from_function in main_old.rs. -/
def extract_crate_from_function (s : String) : String :=
  let parts := splitColons (cleanedName s)
  match parts with
  | [] => "unknown"
  | first :: _ =>
    if isStdCrate first then ⟨first⟩
    else if identLike first then ⟨first⟩
    else
      match parts.find? loopCandidate with
      | some p => ⟨p⟩
      | none => "unknown"

/-- First double colon separated segment of a string, the notion the spec
uses when speaking of the first path segment. -/
def firstPathSegment (s : String) : String := ⟨(splitColons s.data).headI⟩

/-- Holds when none of the attribution rules of
extract_crate_from_function matches the cleaned name: the first segment is
neither a standard library crate nor identifier like, and the fallback
loop finds no candidate segment. -/
def noRuleApplies (s : String) : Bool :=
  match splitColons (cleanedName s) with
  | [] => true
  | first :: rest =>
    !isStdCrate first && !identLike first &&
      ((first :: rest).find? loopCandidate).isNone

/-! ## Command line scanning of main.rs -/

/-- The argument scanning loop of main in main.rs: records whether the
markdown flag was seen and the path following it, consuming the path
argument only when it does not start with a dash. -/
def parseArgsGo : Bool → Option String → List String → Bool × Option String
  | m, p, [] => (m, p)
  | m, p, a :: rest =>
    if a = "--markdown" ∨ a = "-m" then
      match rest with
      | [] => (true, p)
      | b :: rest2 =>
        if b.data.head? = some '-' then parseArgsGo true p (b :: rest2)
        else parseArgsGo true (some b) rest2
    else parseArgsGo m p rest

/-- Scan a full argument vector (the first element is the program name). -/
def parse_args (args : List String) : Bool × Option String :=
  parseArgsGo false none (args.drop 1)

/-- Model of the invalid argument check of main in main.rs: when markdown
mode is requested without an output path the process exits with code 1;
otherwise execution continues (none). -/
def main_invalid_args_exit (args : List String) : Option ℕ :=
  let r := parse_args args
  if r.1 = true ∧ r.2 = none then some 1 else none

/-! ## The report pipeline data model

Modelled from the spec: BuildContext, AggregateSymbol and
AggregateLlvmFunction live in the external substance crate, absent from
this repository.  Sections 3 and 4.5 of the spec describe them: a crate
carries a symbol map with sizes; the all_symbols and all_llvm_functions
views are maps keyed by name; num_llvm_lines is the total IR line count;
wall_duration the build wall time. -/

/-- A symbol aggregated across all crates: name, total size in bytes, and
the set of crates it occurs in. -/
structure AggregateSymbol where
  name : String
  total_size : ℕ
  crates : List String
deriving DecidableEq

/-- An IR function aggregated across all crates: name, total line count,
and the set of crates it occurs in. -/
structure AggregateLlvmFunction where
  name : String
  total_llvm_lines : ℕ
  crates : List String
deriving DecidableEq

/-- One crate of a build: its name and the sizes of its symbols. -/
structure CrateData where
  name : String
  symbols : List (String × ℕ)
deriving DecidableEq

/-- The analyzed view of one build, as consumed by generate_reports. -/
structure BuildContext where
  crates : List CrateData
  deps_symbols : List String
  text_size : ℕ
  symMap : List AggregateSymbol
  fnMap : List AggregateLlvmFunction
  numLlvmLines : ℕ
  wall_secs : ℚ
deriving DecidableEq

/-- Total symbol size of a crate, as generate_reports computes it. -/
def crateSize (c : CrateData) : ℕ := (c.symbols.map Prod.snd).sum

/-- Map from crate name to crate size built by generate_reports. -/
def crateSizeMap (b : BuildContext) : List (String × ℕ) :=
  buildMap (b.crates.map fun k => (k.name, crateSize k))

/-- Union of the crate names of both builds, current keys inserted first,
as a sorted set. -/
def crateNames (base cur : BuildContext) : List String :=
  setOfList (mapKeys (crateSizeMap cur) ++ mapKeys (crateSizeMap base))

/-- One row of the per crate comparison. -/
structure ComparativeCrate where
  name : String
  old : Option ℕ
  new : Option ℕ
  diff : ℤ
deriving DecidableEq

/-- The per crate delta list before sorting: one entry per crate name in
either build, sizes looked up on both sides with 0 for a missing side,
entries with zero delta removed. -/
def comparativeCrates (base cur : BuildContext) : List ComparativeCrate :=
  ((crateNames base cur).map fun n =>
    { name := n
      old := lookupA (crateSizeMap base) n
      new := lookupA (crateSizeMap cur) n
      diff := ((lookupA (crateSizeMap cur) n).getD 0 : ℤ) -
        ((lookupA (crateSizeMap base) n).getD 0 : ℤ) : ComparativeCrate }).filter
    fun c => c.diff ≠ 0

/-- The per crate delta list sorted by descending absolute delta with the
stable sort of the source. -/
def sortedComparativeCrates (base cur : BuildContext) : List ComparativeCrate :=
  sortByKeyDesc (fun c => c.diff.natAbs) (comparativeCrates base cur)

/-- The top ten crate rows shown in the markdown table. -/
def detailedCrates (base cur : BuildContext) : List ComparativeCrate :=
  (sortedComparativeCrates base cur).take 10

/-- The crate rows beyond the top ten, summarized in a single line. -/
def excludedCrates (base cur : BuildContext) : List ComparativeCrate :=
  (sortedComparativeCrates base cur).drop 10

/-- The summary row for the excluded crates: baseline sum, current sum and
their signed difference. -/
def excludedCratesSummary (base cur : BuildContext) : ℕ × ℕ × ℤ :=
  let bs := ((excludedCrates base cur).map fun c => c.old.getD 0).sum
  let cs := ((excludedCrates base cur).map fun c => c.new.getD 0).sum
  (bs, cs, (cs : ℤ) - (bs : ℤ))

/-- Lookup of an aggregate symbol by name, models BTreeMap get on the
all_symbols view. -/
def symFind (m : List AggregateSymbol) (n : String) : Option AggregateSymbol :=
  m.find? fun a => a.name == n

/-- Union of the aggregate symbol names of both builds, baseline names
inserted first, as a sorted set. -/
def symbolNames (base cur : BuildContext) : List String :=
  setOfList ((base.symMap.map fun a => a.name) ++ (cur.symMap.map fun a => a.name))

/-- One row of the per symbol comparison. -/
structure ComparativeSymbol where
  old : Option AggregateSymbol
  new : Option AggregateSymbol
  size_diff : ℤ
deriving DecidableEq

/-- The per symbol comparison list in name order, missing sides counting
as size 0. -/
def comparativeSyms (base cur : BuildContext) : List ComparativeSymbol :=
  (symbolNames base cur).map fun n =>
    { old := symFind base.symMap n
      new := symFind cur.symMap n
      size_diff := (((symFind cur.symMap n).map fun a => a.total_size).getD 0 : ℤ) -
        (((symFind base.symMap n).map fun a => a.total_size).getD 0 : ℤ) }

/-- The per symbol delta list: zero deltas removed, then the stable sort by
descending absolute delta. -/
def sortedComparativeSyms (base cur : BuildContext) : List ComparativeSymbol :=
  sortByKeyDesc (fun s => s.size_diff.natAbs)
    ((comparativeSyms base cur).filter fun s => s.size_diff ≠ 0)

/-- The name a symbol row is displayed under: the current side if present,
else the baseline side, else a placeholder. -/
def csName (s : ComparativeSymbol) : String :=
  match s.new with
  | some a => a.name
  | none =>
    match s.old with
    | some a => a.name
    | none => "<unknown>"

/-- The top twenty symbol rows shown in the markdown table. -/
def detailedSyms (base cur : BuildContext) : List ComparativeSymbol :=
  (sortedComparativeSyms base cur).take 20

/-- The symbol rows beyond the top twenty. -/
def excludedSyms (base cur : BuildContext) : List ComparativeSymbol :=
  (sortedComparativeSyms base cur).drop 20

/-- The summary row for the excluded symbols. -/
def excludedSymsSummary (base cur : BuildContext) : ℕ × ℕ × ℤ :=
  let bs := ((excludedSyms base cur).map fun s =>
    ((s.old.map fun a => a.total_size).getD 0)).sum
  let cs := ((excludedSyms base cur).map fun s =>
    ((s.new.map fun a => a.total_size).getD 0)).sum
  (bs, cs, (cs : ℤ) - (bs : ℤ))

/-- The all_llvm_functions view with the build probe helpers removed:
generate_reports retains only functions whose name does not start with
the autocfg prefix. -/
def fnRetained (b : BuildContext) : List AggregateLlvmFunction :=
  b.fnMap.filter fun f => !("autocfg_".data.isPrefixOf f.name.data)

/-- Lookup of an aggregate IR function by name. -/
def fnFind (m : List AggregateLlvmFunction) (n : String) : Option AggregateLlvmFunction :=
  m.find? fun f => f.name == n

/-- Union of the retained IR function names of both builds, current names
inserted first, as a sorted set. -/
def fnNames (base cur : BuildContext) : List String :=
  setOfList (((fnRetained cur).map fun f => f.name) ++ ((fnRetained base).map fun f => f.name))

/-- One row of the per IR function comparison. -/
structure ComparativeFn where
  old : Option AggregateLlvmFunction
  new : Option AggregateLlvmFunction
  line_diff : ℤ
deriving DecidableEq

/-- The per IR function comparison list in name order, missing sides
counting as 0 lines, zero deltas removed. -/
def comparativeFns (base cur : BuildContext) : List ComparativeFn :=
  ((fnNames base cur).map fun n =>
    { old := fnFind (fnRetained base) n
      new := fnFind (fnRetained cur) n
      line_diff := (((fnFind (fnRetained cur) n).map fun f => f.total_llvm_lines).getD 0 : ℤ) -
        (((fnFind (fnRetained base) n).map fun f => f.total_llvm_lines).getD 0 : ℤ) :
      ComparativeFn }).filter
    fun f => f.line_diff ≠ 0

/-- The per IR function delta list sorted by descending absolute delta. -/
def sortedComparativeFns (base cur : BuildContext) : List ComparativeFn :=
  sortByKeyDesc (fun f => f.line_diff.natAbs) (comparativeFns base cur)

/-- The name an IR function row is displayed under. -/
def cfName (f : ComparativeFn) : String :=
  match f.new with
  | some a => a.name
  | none =>
    match f.old with
    | some a => a.name
    | none => "<unknown>"

/-- The top twenty IR function rows shown in the markdown table. -/
def detailedFns (base cur : BuildContext) : List ComparativeFn :=
  (sortedComparativeFns base cur).take 20

/-- The IR function rows beyond the top twenty. -/
def excludedFns (base cur : BuildContext) : List ComparativeFn :=
  (sortedComparativeFns base cur).drop 20

/-- The summary row for the excluded IR functions. -/
def excludedFnsSummary (base cur : BuildContext) : ℕ × ℕ × ℤ :=
  let bs := ((excludedFns base cur).map fun f =>
    ((f.old.map fun a => a.total_llvm_lines).getD 0)).sum
  let cs := ((excludedFns base cur).map fun f =>
    ((f.new.map fun a => a.total_llvm_lines).getD 0)).sum
  (bs, cs, (cs : ℤ) - (bs : ℤ))

/-! ## Scalar deltas and their rendered change strings -/

/-- Crate count delta. -/
def crateCountDelta (base cur : BuildContext) : ℤ :=
  (cur.crates.length : ℤ) - (base.crates.length : ℤ)

/-- Symbol count delta (the deps_symbols set sizes). -/
def symbolCountDelta (base cur : BuildContext) : ℤ :=
  (cur.deps_symbols.length : ℤ) - (base.deps_symbols.length : ℤ)

/-- Text section size delta. -/
def textSizeDelta (base cur : BuildContext) : ℤ :=
  (cur.text_size : ℤ) - (base.text_size : ℤ)

/-- Total IR line count delta. -/
def llvmLinesDelta (base cur : BuildContext) : ℤ :=
  (cur.numLlvmLines : ℤ) - (base.numLlvmLines : ℤ)

/-- Wall duration delta in seconds. -/
def wallDelta (base cur : BuildContext) : ℚ := cur.wall_secs - base.wall_secs

/-- The unitless_diff macro of generate_reports (markdown side): rendered
change string of a count delta. -/
def unitless_diff (old new : ℤ) : String :=
  let d := new - old
  if 0 < d then " (📈 +" ++ fmt_thousands d ++ ")"
  else if d < 0 then " (📉 " ++ fmt_thousands d ++ ")"
  else " (➖ no change)"

/-- The bytes_diff macro of generate_reports (markdown side): rendered
change string of a byte size delta. -/
def bytes_diff (old new : ℕ) : String :=
  let d := (new : ℤ) - (old : ℤ)
  if 0 < d then " (📈 +" ++ format_bytes d.toNat ++ ")"
  else if d < 0 then " (📉 -" ++ format_bytes (-d).toNat ++ ")"
  else " (➖ no change)"

/-- The wall duration change rendering of generate_reports: a band of a
hundredth of a second on either side renders as no change.  The threshold
literal is modelled as the exact rational; its binary rounding plays no
role in the proved properties. -/
def wall_diff (base cur : ℚ) : String :=
  let d := cur - base
  if 1 / 100 < d then " (📈 +" ++ fmtFixed d 2 ++ " s)"
  else if d < -(1 / 100) then " (📉 " ++ fmtFixed d 2 ++ " s)"
  else " (➖ no change)"

/-! ## The report as data

All text and markdown output of generate_reports is a pure function of the
data collected here: the scalar pairs, the three sorted delta lists with
their detailed and excluded splits, and the summary rows. -/

/-- Everything the rendered reports depend on. -/
structure ReportData where
  baselineNumCrates : ℕ
  currentNumCrates : ℕ
  crateList : List ComparativeCrate
  crateDetailed : List ComparativeCrate
  crateExcluded : List ComparativeCrate
  crateSummary : ℕ × ℕ × ℤ
  baselineNumSymbols : ℕ
  currentNumSymbols : ℕ
  baselineTextSize : ℕ
  currentTextSize : ℕ
  symList : List ComparativeSymbol
  symDetailed : List ComparativeSymbol
  symExcluded : List ComparativeSymbol
  symSummary : ℕ × ℕ × ℤ
  baselineLlvmLines : ℕ
  currentLlvmLines : ℕ
  fnList : List ComparativeFn
  fnDetailed : List ComparativeFn
  fnExcluded : List ComparativeFn
  fnSummary : ℕ × ℕ × ℤ
  baselineWall : ℚ
  currentWall : ℚ
deriving DecidableEq

/-- Model of generate_reports in report.rs: the complete report content
for a baseline and a current build. -/
def generate_reports (base cur : BuildContext) : ReportData :=
  { baselineNumCrates := base.crates.length
    currentNumCrates := cur.crates.length
    crateList := sortedComparativeCrates base cur
    crateDetailed := detailedCrates base cur
    crateExcluded := excludedCrates base cur
    crateSummary := excludedCratesSummary base cur
    baselineNumSymbols := base.deps_symbols.length
    currentNumSymbols := cur.deps_symbols.length
    baselineTextSize := base.text_size
    currentTextSize := cur.text_size
    symList := sortedComparativeSyms base cur
    symDetailed := detailedSyms base cur
    symExcluded := excludedSyms base cur
    symSummary := excludedSymsSummary base cur
    baselineLlvmLines := base.numLlvmLines
    currentLlvmLines := cur.numLlvmLines
    fnList := sortedComparativeFns base cur
    fnDetailed := detailedFns base cur
    fnExcluded := excludedFns base cur
    fnSummary := excludedFnsSummary base cur
    baselineWall := base.wall_secs
    currentWall := cur.wall_secs }

/-! ## Relations used in the ordering statements -/

/-- Ordering of crate rows: strictly larger absolute delta first, ties
broken by ascending name. -/
def crateLex (a b : ComparativeCrate) : Prop :=
  b.diff.natAbs < a.diff.natAbs ∨ (a.diff.natAbs = b.diff.natAbs ∧ a.name < b.name)

/-- Ordering of symbol rows: strictly larger absolute delta first, ties
broken by ascending displayed name. -/
def symLex (a b : ComparativeSymbol) : Prop :=
  b.size_diff.natAbs < a.size_diff.natAbs ∨
    (a.size_diff.natAbs = b.size_diff.natAbs ∧ csName a < csName b)

/-- Ordering of IR function rows: strictly larger absolute delta first,
ties broken by ascending displayed name. -/
def fnLex (a b : ComparativeFn) : Prop :=
  b.line_diff.natAbs < a.line_diff.natAbs ∨
    (a.line_diff.natAbs = b.line_diff.natAbs ∧ cfName a < cfName b)

/-- Mirror of a crate row: sides swapped, delta negated. -/
def negCrateRow (c : ComparativeCrate) : ComparativeCrate :=
  ⟨c.name, c.new, c.old, -c.diff⟩

/-- Mirror of a symbol row: sides swapped, delta negated. -/
def negSymRow (s : ComparativeSymbol) : ComparativeSymbol :=
  ⟨s.new, s.old, -s.size_diff⟩

/-- Mirror of an IR function row: sides swapped, delta negated. -/
def negFnRow (f : ComparativeFn) : ComparativeFn :=
  ⟨f.new, f.old, -f.line_diff⟩

/-! ## Concrete example builds used for evaluating the pipeline -/

/-- Example build with no crates, symbols or IR functions. -/
def emptyBuild : BuildContext :=
  { crates := [], deps_symbols := [], text_size := 0, symMap := [], fnMap := [],
    numLlvmLines := 0, wall_secs := 0 }

/-- Example build with a single crate, symbol and IR function. -/
def smallBuild : BuildContext :=
  { crates := [{ name := "alpha", symbols := [("s", 7)] }]
    deps_symbols := ["x"]
    text_size := 7
    symMap := [{ name := "s", total_size := 7, crates := ["alpha"] }]
    fnMap := [{ name := "f", total_llvm_lines := 3, crates := ["alpha"] }]
    numLlvmLines := 3
    wall_secs := 1 }

/-- Example build exceeding every table limit: eleven crates, twenty one
symbols and twenty one IR functions, with pairwise distinct deltas against
the empty build. -/
def largeBuild : BuildContext :=
  { crates := [{ name := "c01", symbols := [("s", 1)] }, { name := "c02", symbols := [("s", 2)] }, { name := "c03", symbols := [("s", 3)] }, { name := "c04", symbols := [("s", 4)] }, { name := "c05", symbols := [("s", 5)] }, { name := "c06", symbols := [("s", 6)] }, { name := "c07", symbols := [("s", 7)] }, { name := "c08", symbols := [("s", 8)] }, { name := "c09", symbols := [("s", 9)] }, { name := "c10", symbols := [("s", 10)] }, { name := "c11", symbols := [("s", 11)] }]
    deps_symbols := []
    text_size := 0
    symMap := [{ name := "s01", total_size := 1, crates := [] }, { name := "s02", total_size := 2, crates := [] }, { name := "s03", total_size := 3, crates := [] }, { name := "s04", total_size := 4, crates := [] }, { name := "s05", total_size := 5, crates := [] }, { name := "s06", total_size := 6, crates := [] }, { name := "s07", total_size := 7, crates := [] }, { name := "s08", total_size := 8, crates := [] }, { name := "s09", total_size := 9, crates := [] }, { name := "s10", total_size := 10, crates := [] }, { name := "s11", total_size := 11, crates := [] }, { name := "s12", total_size := 12, crates := [] }, { name := "s13", total_size := 13, crates := [] }, { name := "s14", total_size := 14, crates := [] }, { name := "s15", total_size := 15, crates := [] }, { name := "s16", total_size := 16, crates := [] }, { name := "s17", total_size := 17, crates := [] }, { name := "s18", total_size := 18, crates := [] }, { name := "s19", total_size := 19, crates := [] }, { name := "s20", total_size := 20, crates := [] }, { name := "s21", total_size := 21, crates := [] }]
    fnMap := [{ name := "f01", total_llvm_lines := 1, crates := [] }, { name := "f02", total_llvm_lines := 2, crates := [] }, { name := "f03", total_llvm_lines := 3, crates := [] }, { name := "f04", total_llvm_lines := 4, crates := [] }, { name := "f05", total_llvm_lines := 5, crates := [] }, { name := "f06", total_llvm_lines := 6, crates := [] }, { name := "f07", total_llvm_lines := 7, crates := [] }, { name := "f08", total_llvm_lines := 8, crates := [] }, { name := "f09", total_llvm_lines := 9, crates := [] }, { name := "f10", total_llvm_lines := 10, crates := [] }, { name := "f11", total_llvm_lines := 11, crates := [] }, { name := "f12", total_llvm_lines := 12, crates := [] }, { name := "f13", total_llvm_lines := 13, crates := [] }, { name := "f14", total_llvm_lines := 14, crates := [] }, { name := "f15", total_llvm_lines := 15, crates := [] }, { name := "f16", total_llvm_lines := 16, crates := [] }, { name := "f17", total_llvm_lines := 17, crates := [] }, { name := "f18", total_llvm_lines := 18, crates := [] }, { name := "f19", total_llvm_lines := 19, crates := [] }, { name := "f20", total_llvm_lines := 20, crates := [] }, { name := "f21", total_llvm_lines := 21, crates := [] }]
    numLlvmLines := 0
    wall_secs := 0 }

/-! ## Lemmas on decimal rendering -/

theorem strMk_data (s : String) : String.mk s.data = s := by
  cases s
  rfl

theorem string_append_data (a b : String) : (a ++ b).data = a.data ++ b.data :=
  String.data_append a b

theorem natToDigitsGo_fuel (f : ℕ) : ∀ (g n : ℕ), n < f → n < g →
    natToDigitsGo f n = natToDigitsGo g n := by
  induction f with
  | zero => intro g n hf _; omega
  | succ f ih =>
    intro g n hf hg
    match g, hg with
    | g + 1, _ =>
      by_cases h10 : n < 10
      · simp [natToDigitsGo, h10]
      · have hn0 : 0 < n := by omega
        have hdiv : n / 10 < n := Nat.div_lt_self hn0 (by omega)
        simp only [natToDigitsGo, if_neg h10]
        rw [ih g (n / 10) (by omega) (by omega)]

theorem natToDigitsGo_length_le (p : ℕ) : ∀ (n f : ℕ), 1 ≤ p → n < 10 ^ p → n < f →
    (natToDigitsGo f n).length ≤ p := by
  induction p with
  | zero => intro n f hp _ _; omega
  | succ p ih =>
    intro n f _ hn hf
    match f, hf with
    | f + 1, _ =>
      by_cases h10 : n < 10
      · simp [natToDigitsGo, h10]
      · have hp1 : 1 ≤ p := by
          by_contra hc
          have : p = 0 := by omega
          subst this
          simp [pow_succ, pow_zero] at hn
          omega
        have hn0 : 0 < n := by omega
        have hdiv : n / 10 < n := Nat.div_lt_self hn0 (by omega)
        have hq : n / 10 < 10 ^ p := by
          apply (Nat.div_lt_iff_lt_mul (by omega : 0 < 10)).mpr
          calc n < 10 ^ (p + 1) := hn
          _ = 10 ^ p * 10 := by ring
        simp only [natToDigitsGo, if_neg h10, List.length_append, List.length_cons,
          List.length_nil]
        have := ih (n / 10) f hp1 hq (by omega)
        omega

theorem natToString_length_le (p n : ℕ) (hp : 1 ≤ p) (hn : n < 10 ^ p) :
    (natToString n).data.length ≤ p :=
  natToDigitsGo_length_le p n (n + 1) hp hn (Nat.lt_succ_self n)

theorem natToString_digit (n : ℕ) (h : n < 10) :
    (natToString n).data = [Nat.digitChar n] := by
  simp [natToString, natToDigitsGo, h]

theorem padZeros_length (s : List Char) (len : ℕ) (h : s.length ≤ len) :
    (padZeros s len).length = len := by
  simp [padZeros]
  omega

theorem padZeros_of_length_eq (s : List Char) (len : ℕ) (h : s.length = len) :
    padZeros s len = s := by
  simp [padZeros, h]

/-! ## Lemmas on thousands grouping -/

theorem data_mk (l : List Char) : (String.mk l).data = l := rfl

theorem thousandsGo_shift (l : List Char) : ∀ (i j : ℕ), i % 3 = j % 3 → (i = 0 ↔ j = 0) →
    thousandsGo i l = thousandsGo j l := by
  induction l with
  | nil => intro i j _ _; rfl
  | cons c t ih =>
    intro i j hmod hzero
    simp only [thousandsGo]
    have hcond : (i ≠ 0 ∧ i % 3 = 0) ↔ (j ≠ 0 ∧ j % 3 = 0) := by omega
    rw [ih (i + 1) (j + 1) (by omega) (by omega)]
    congr 1
    exact if_congr hcond rfl rfl

theorem thousandsGo_three (l : List Char) :
    thousandsGo 3 l = if l.isEmpty then [] else ',' :: thousandsGo 0 l := by
  cases l with
  | nil => rfl
  | cons c t =>
    have h41 : thousandsGo 4 t = thousandsGo 1 t :=
      thousandsGo_shift t 4 1 (by omega) (by omega)
    simp only [thousandsGo, h41, List.isEmpty_cons]
    norm_num

theorem chunk3_ne_nil (l : List Char) (h : l ≠ []) : chunk3 l ≠ [] := by
  match l with
  | [a] => simp [chunk3]
  | [a, b] => simp [chunk3]
  | a :: b :: c :: t => simp [chunk3]

theorem thousandsGo_chunks (l : List Char) :
    thousandsGo 0 l = joinComma (chunk3 l) := by
  match l with
  | [] => rfl
  | [a] => rfl
  | [a, b] => rfl
  | a :: b :: c :: t =>
    have hL : thousandsGo 0 (a :: b :: c :: t) = a :: b :: c :: thousandsGo 3 t := by
      simp only [thousandsGo]
      norm_num
    rw [hL, thousandsGo_three t]
    cases ht : t.isEmpty
    · have htne : t ≠ [] := by
        cases t
        · simp at ht
        · simp
      have ih := thousandsGo_chunks t
      rw [if_neg (by simp [ht])]
      have hcne : chunk3 t ≠ [] := chunk3_ne_nil t htne
      cases hc : chunk3 t with
      | nil => exact absurd hc hcne
      | cons x xs =>
        show a :: b :: c :: ',' :: thousandsGo 0 t = joinComma (chunk3 (a :: b :: c :: t))
        rw [show chunk3 (a :: b :: c :: t) = [a, b, c] :: chunk3 t from rfl, hc]
        show _ = [a, b, c] ++ ',' :: joinComma (x :: xs)
        rw [ih, hc]
        simp
    · have : t = [] := by
        cases t
        · rfl
        · simp at ht
      subst this
      rfl

theorem joinComma_append_single (A : List (List Char)) (z : List Char) (h : A ≠ []) :
    joinComma (A ++ [z]) = joinComma A ++ ',' :: z := by
  match A with
  | [x] => rfl
  | x :: y :: t =>
    have ih := joinComma_append_single (y :: t) z (by simp)
    calc joinComma ((x :: y :: t) ++ [z]) = x ++ ',' :: joinComma ((y :: t) ++ [z]) := by
          rfl
    _ = x ++ ',' :: (joinComma (y :: t) ++ ',' :: z) := by rw [ih]
    _ = joinComma (x :: y :: t) ++ ',' :: z := by
          show _ = (x ++ ',' :: joinComma (y :: t)) ++ ',' :: z
          simp

theorem joinComma_reverse (L : List (List Char)) :
    (joinComma L).reverse = joinComma ((L.map List.reverse).reverse) := by
  match L with
  | [] => rfl
  | [x] => simp [joinComma]
  | x :: y :: t =>
    have ih := joinComma_reverse (y :: t)
    have hne : ((y :: t).map List.reverse).reverse ≠ [] := by simp
    calc (joinComma (x :: y :: t)).reverse = (x ++ ',' :: joinComma (y :: t)).reverse := by
          rfl
    _ = ((joinComma (y :: t)).reverse ++ [',']) ++ x.reverse := by simp
    _ = joinComma (((y :: t).map List.reverse).reverse) ++ ',' :: x.reverse := by
          rw [ih]
          simp
    _ = joinComma ((((y :: t).map List.reverse).reverse) ++ [x.reverse]) := by
          rw [joinComma_append_single _ _ hne]
    _ = joinComma (((x :: y :: t).map List.reverse).reverse) := by
          simp

/-! ## Lemmas on fixed precision rendering -/

theorem roundHalfEven_ge_floor (q : ℚ) : ⌊q⌋ ≤ roundHalfEven q := by
  unfold roundHalfEven
  split
  · exact le_refl _
  · split
    · omega
    · split <;> omega

theorem roundHalfEven_nonneg (q : ℚ) (h : 0 ≤ q) : 0 ≤ roundHalfEven q := by
  have h1 : (0 : ℤ) ≤ ⌊q⌋ := Int.floor_nonneg.mpr h
  have := roundHalfEven_ge_floor q
  omega

theorem string_empty_append (s : String) : "" ++ s = s := by
  apply String.ext
  simp [string_append_data]

theorem fmtFixed_shape (q : ℚ) (hq : 0 ≤ q) (p : ℕ) (hp : 1 ≤ p) :
    ∃ ip fp : ℕ, fp < 10 ^ p ∧
      fmtFixed q p = natToString ip ++ "." ++ String.mk (padZeros (natToString fp).data p) ∧
      (String.mk (padZeros (natToString fp).data p)).length = p := by
  have hpow : 0 < 10 ^ p := Nat.pos_pow_of_pos p (by omega)
  refine ⟨(roundHalfEven (|q| * 10 ^ p)).toNat / 10 ^ p,
    (roundHalfEven (|q| * 10 ^ p)).toNat % 10 ^ p, Nat.mod_lt _ hpow, ?_, ?_⟩
  · have h1 : ¬q < 0 := not_lt.mpr hq
    have h2 : ¬p = 0 := by omega
    apply String.ext
    simp [fmtFixed, h1, h2, string_append_data, data_mk]
  · show (padZeros (natToString _).data p).length = p
    exact padZeros_length _ _ (natToString_length_le p _ hp (Nat.mod_lt _ hpow))

theorem fmtFixed_one_digit (q : ℚ) (hq : 0 ≤ q) :
    ∃ ip fp : ℕ, fp < 10 ∧ fmtFixed q 1 = natToString ip ++ "." ++ natToString fp := by
  obtain ⟨ip, fp, hfp, heq, _⟩ := fmtFixed_shape q hq 1 (le_refl 1)
  refine ⟨ip, fp, by simpa using hfp, ?_⟩
  rw [heq]
  congr 1
  rw [padZeros_of_length_eq _ _ (by rw [natToString_digit fp (by simpa using hfp)]; rfl)]

theorem fmt_thousands_eq_spec (n : ℤ) : fmt_thousands n = spec_thousands n := by
  simp only [fmt_thousands, spec_thousands]
  have hcore : (thousandsGo 0 ((natToString n.natAbs).data.reverse)).reverse =
      joinComma (((chunk3 ((natToString n.natAbs).data.reverse)).map List.reverse).reverse) := by
    rw [thousandsGo_chunks, joinComma_reverse]
  by_cases h : n < 0
  · rw [if_pos h, if_pos h, hcore]
  · rw [if_neg h, if_neg h, hcore, string_empty_append]

/-! ## Lemmas on format_bytes -/

theorem roundF64_of_lt (b : ℕ) (h : b < 2 ^ 53) : roundF64 b = (b : ℚ) := by
  unfold roundF64
  rw [if_pos h]

theorem roundF64_nonneg (b : ℕ) : 0 ≤ roundF64 b := by
  unfold roundF64
  split
  · positivity
  · have h1 : 0 ≤ roundHalfEven ((b : ℚ) / 2 ^ (Nat.log2 b - 52)) :=
      roundHalfEven_nonneg _ (by positivity)
    have h2 : (0 : ℚ) ≤ (roundHalfEven ((b : ℚ) / 2 ^ (Nat.log2 b - 52)) : ℚ) := by
      exact_mod_cast h1
    positivity

theorem roundF64_ge_2pow40 (b : ℕ) (h : 2 ^ 40 ≤ b) : (2 ^ 40 : ℚ) ≤ roundF64 b := by
  unfold roundF64
  split
  · exact_mod_cast h
  · next h53 =>
    have hb53 : 2 ^ 53 ≤ b := by omega
    have hb0 : b ≠ 0 := by omega
    have hL : 53 ≤ Nat.log2 b := (Nat.le_log2 hb0).mpr hb53
    set s := Nat.log2 b - 52 with hs
    have hLs : Nat.log2 b = 52 + s := by omega
    have hpow : 2 ^ (52 + s) ≤ b := by
      rw [← hLs]
      exact Nat.log2_self_le hb0
    have hdiv : (2 : ℕ) ^ 52 ≤ b / 2 ^ s := by
      rw [Nat.le_div_iff_mul_le (Nat.pos_pow_of_pos s (by omega))]
      calc 2 ^ 52 * 2 ^ s = 2 ^ (52 + s) := by rw [pow_add]
      _ ≤ b := hpow
    have hfloor : ⌊(b : ℚ) / 2 ^ s⌋ = (b / 2 ^ s : ℕ) := by
      have := Rat.floor_natCast_div_natCast b (2 ^ s)
      push_cast at this ⊢
      exact this
    have hrhe : ((2 : ℤ) ^ 52) ≤ roundHalfEven ((b : ℚ) / 2 ^ s) := by
      have h1 := roundHalfEven_ge_floor ((b : ℚ) / 2 ^ s)
      have h2 : ((2 : ℤ) ^ 52) ≤ ⌊(b : ℚ) / 2 ^ s⌋ := by
        rw [hfloor]
        exact_mod_cast hdiv
      omega
    have hrheq : ((2 : ℚ) ^ 52) ≤ (roundHalfEven ((b : ℚ) / 2 ^ s) : ℚ) := by
      exact_mod_cast hrhe
    have hspos : (0 : ℚ) < 2 ^ s := by positivity
    calc (2 : ℚ) ^ 40 ≤ 2 ^ 52 * 2 ^ s := by
          have h1 : (1 : ℚ) ≤ 2 ^ s := one_le_pow₀ (by norm_num)
          nlinarith [pow_le_pow_right₀ (by norm_num : (1:ℚ) ≤ 2) (by omega : 40 ≤ 52)]
    _ ≤ (roundHalfEven ((b : ℚ) / 2 ^ s) : ℚ) * 2 ^ s := by
          exact mul_le_mul_of_nonneg_right hrheq (le_of_lt hspos)

theorem format_bytes_lt (b : ℕ) (h : b < 1024) : format_bytes b = natToString b ++ " B" := by
  have hR : roundF64 b = (b : ℚ) := roundF64_of_lt b (by omega)
  have hc : ¬(1024 : ℚ) ≤ (b : ℚ) := by
    rw [not_le]
    exact_mod_cast h
  have hloop : formatBytesLoop 4 (roundF64 b) 0 = ((b : ℚ), 0) := by
    rw [hR]
    show (if (1024 : ℚ) ≤ (b : ℚ) then formatBytesLoop 3 ((b : ℚ) / 1024) 1 else ((b : ℚ), 0)) =
      ((b : ℚ), 0)
    rw [if_neg hc]
  simp [format_bytes, hloop]

theorem format_bytes_ge (b : ℕ) (h : 1024 ≤ b) :
    ∃ ip fp : ℕ, fp < 10 ∧
      format_bytes b = natToString ip ++ "." ++ natToString fp ++ " " ++ bytesUnit b := by
  have step : ∀ (q : ℚ) (f : ℕ) (u : ℕ), formatBytesLoop (f + 1) q u =
      if 1024 ≤ q then formatBytesLoop f (q / 1024) (u + 1) else (q, u) := fun _ _ _ => rfl
  by_cases h1 : b < 1024 ^ 2
  · have hR : roundF64 b = (b : ℚ) := roundF64_of_lt b (by nlinarith)
    have hc1 : (1024 : ℚ) ≤ (b : ℚ) := by exact_mod_cast h
    have hc2 : ¬(1024 : ℚ) ≤ (b : ℚ) / 1024 := by
      rw [not_le, div_lt_iff₀ (by norm_num)]
      calc (b : ℚ) < ((1024 ^ 2 : ℕ) : ℚ) := by exact_mod_cast h1
      _ = 1024 * 1024 := by norm_num
    have hloop : formatBytesLoop 4 (roundF64 b) 0 = ((b : ℚ) / 1024, 1) := by
      rw [hR, show (4 : ℕ) = 3 + 1 from rfl, step, if_pos hc1, show (3 : ℕ) = 2 + 1 from rfl,
        step, if_neg hc2]
    obtain ⟨ip, fp, hfp, hfmt⟩ := fmtFixed_one_digit ((b : ℚ) / 1024) (by positivity)
    refine ⟨ip, fp, hfp, ?_⟩
    rw [format_bytes, hloop]
    simp only [bytesUnit, if_pos h1]
    rw [hfmt]
    rfl
  · by_cases h2 : b < 1024 ^ 3
    · have hR : roundF64 b = (b : ℚ) := roundF64_of_lt b (by nlinarith)
      have hc1 : (1024 : ℚ) ≤ (b : ℚ) := by exact_mod_cast h
      have hc2 : (1024 : ℚ) ≤ (b : ℚ) / 1024 := by
        rw [le_div_iff₀ (by norm_num)]
        calc (1024 : ℚ) * 1024 = ((1024 ^ 2 : ℕ) : ℚ) := by norm_num
        _ ≤ (b : ℚ) := by exact_mod_cast (by omega : 1024 ^ 2 ≤ b)
      have hc3 : ¬(1024 : ℚ) ≤ (b : ℚ) / 1024 / 1024 := by
        rw [not_le, div_div, div_lt_iff₀ (by norm_num)]
        calc (b : ℚ) < ((1024 ^ 3 : ℕ) : ℚ) := by exact_mod_cast h2
        _ = 1024 * (1024 * 1024) := by norm_num
      have hloop : formatBytesLoop 4 (roundF64 b) 0 = ((b : ℚ) / 1024 / 1024, 2) := by
        rw [hR, show (4 : ℕ) = 3 + 1 from rfl, step, if_pos hc1,
          show (3 : ℕ) = 2 + 1 from rfl, step, if_pos hc2,
          show (2 : ℕ) = 1 + 1 from rfl, step, if_neg hc3]
      obtain ⟨ip, fp, hfp, hfmt⟩ := fmtFixed_one_digit ((b : ℚ) / 1024 / 1024) (by positivity)
      refine ⟨ip, fp, hfp, ?_⟩
      rw [format_bytes, hloop]
      simp only [bytesUnit, if_neg (by omega : ¬b < 1024 ^ 2), if_pos h2]
      rw [hfmt]
      rfl
    · by_cases h3 : b < 1024 ^ 4
      · have hR : roundF64 b = (b : ℚ) := roundF64_of_lt b (by nlinarith)
        have hc1 : (1024 : ℚ) ≤ (b : ℚ) := by exact_mod_cast h
        have hc2 : (1024 : ℚ) ≤ (b : ℚ) / 1024 := by
          rw [le_div_iff₀ (by norm_num)]
          calc (1024 : ℚ) * 1024 = ((1024 ^ 2 : ℕ) : ℚ) := by norm_num
          _ ≤ (b : ℚ) := by exact_mod_cast (by omega : 1024 ^ 2 ≤ b)
        have hc3 : (1024 : ℚ) ≤ (b : ℚ) / 1024 / 1024 := by
          rw [div_div, le_div_iff₀ (by norm_num)]
          calc (1024 : ℚ) * (1024 * 1024) = ((1024 ^ 3 : ℕ) : ℚ) := by norm_num
          _ ≤ (b : ℚ) := by exact_mod_cast (by omega : 1024 ^ 3 ≤ b)
        have hc4 : ¬(1024 : ℚ) ≤ (b : ℚ) / 1024 / 1024 / 1024 := by
          rw [not_le, div_div, div_div, div_lt_iff₀ (by norm_num)]
          calc (b : ℚ) < ((1024 ^ 4 : ℕ) : ℚ) := by exact_mod_cast h3
          _ = 1024 * (1024 * (1024 * 1024)) := by norm_num
        have hloop : formatBytesLoop 4 (roundF64 b) 0 = ((b : ℚ) / 1024 / 1024 / 1024, 3) := by
          rw [hR, show (4 : ℕ) = 3 + 1 from rfl, step, if_pos hc1,
            show (3 : ℕ) = 2 + 1 from rfl, step, if_pos hc2,
            show (2 : ℕ) = 1 + 1 from rfl, step, if_pos hc3,
            show (1 : ℕ) = 0 + 1 from rfl, step, if_neg hc4]
        obtain ⟨ip, fp, hfp, hfmt⟩ :=
          fmtFixed_one_digit ((b : ℚ) / 1024 / 1024 / 1024) (by positivity)
        refine ⟨ip, fp, hfp, ?_⟩
        rw [format_bytes, hloop]
        simp only [bytesUnit, if_neg (by omega : ¬b < 1024 ^ 2),
          if_neg (by omega : ¬b < 1024 ^ 3), if_pos h3]
        rw [hfmt]
        rfl
      · have h40 : 2 ^ 40 ≤ b := by
          have : (1024 : ℕ) ^ 4 = 2 ^ 40 := by norm_num
          omega
        have hq40 : (2 ^ 40 : ℚ) ≤ roundF64 b := roundF64_ge_2pow40 b h40
        have hq0 : (0 : ℚ) ≤ roundF64 b := roundF64_nonneg b
        set q := roundF64 b with hqdef
        have hc1 : (1024 : ℚ) ≤ q := by
          calc (1024 : ℚ) ≤ 2 ^ 40 := by norm_num
          _ ≤ q := hq40
        have hc2 : (1024 : ℚ) ≤ q / 1024 := by
          rw [le_div_iff₀ (by norm_num)]
          calc (1024 : ℚ) * 1024 ≤ 2 ^ 40 := by norm_num
          _ ≤ q := hq40
        have hc3 : (1024 : ℚ) ≤ q / 1024 / 1024 := by
          rw [div_div, le_div_iff₀ (by norm_num)]
          calc (1024 : ℚ) * (1024 * 1024) ≤ 2 ^ 40 := by norm_num
          _ ≤ q := hq40
        have hc4 : (1024 : ℚ) ≤ q / 1024 / 1024 / 1024 := by
          rw [div_div, div_div, le_div_iff₀ (by norm_num)]
          calc (1024 : ℚ) * (1024 * (1024 * 1024)) ≤ 2 ^ 40 := by norm_num
          _ ≤ q := hq40
        have hloop : formatBytesLoop 4 q 0 = (q / 1024 / 1024 / 1024 / 1024, 4) := by
          rw [show (4 : ℕ) = 3 + 1 from rfl, step, if_pos hc1,
            show (3 : ℕ) = 2 + 1 from rfl, step, if_pos hc2,
            show (2 : ℕ) = 1 + 1 from rfl, step, if_pos hc3,
            show (1 : ℕ) = 0 + 1 from rfl, step, if_pos hc4]
          norm_num [formatBytesLoop]
        obtain ⟨ip, fp, hfp, hfmt⟩ :=
          fmtFixed_one_digit (q / 1024 / 1024 / 1024 / 1024) (by positivity)
        refine ⟨ip, fp, hfp, ?_⟩
        rw [format_bytes, ← hqdef, hloop]
        simp only [bytesUnit, if_neg (by omega : ¬b < 1024 ^ 2),
          if_neg (by omega : ¬b < 1024 ^ 3), if_neg h3]
        rw [hfmt]
        rfl

/-! ## Lemmas on the sorted set model -/

/-! ## The boolean order coincides with the string order -/

theorem lexLt_iff : ∀ (as bs : List Char), lexLt as bs = true ↔ as < bs := by
  intro as
  induction as with
  | nil =>
    intro bs
    cases bs with
    | nil =>
      constructor
      · intro h; exact absurd h (by simp [lexLt])
      · intro h; cases h
    | cons b t =>
      constructor
      · intro _; exact List.Lex.nil
      · intro _; rfl
  | cons a as ih =>
    intro bs
    cases bs with
    | nil =>
      constructor
      · intro h; exact absurd h (by simp [lexLt])
      · intro h; cases h
    | cons b bs =>
      show (if a < b then true else if a = b then lexLt as bs else false) = true ↔ _
      by_cases hab : a < b
      · rw [if_pos hab]
        constructor
        · intro _; exact List.Lex.rel hab
        · intro _; rfl
      · rw [if_neg hab]
        by_cases haeq : a = b
        · subst haeq
          rw [if_pos rfl, ih bs]
          constructor
          · intro h; exact List.Lex.cons h
          · intro h
            cases h with
            | cons h => exact h
            | rel h => exact absurd h (lt_irrefl a)
        · rw [if_neg haeq]
          constructor
          · intro h; exact absurd h (by simp)
          · intro h
            cases h with
            | cons h => exact absurd rfl haeq
            | rel h => exact absurd h hab

theorem strLt_iff (a b : String) : strLt a b = true ↔ a < b := by
  rw [String.lt_iff_toList_lt]
  exact lexLt_iff a.data b.data

theorem setInsert_mem (l : List String) (k x : String) :
    x ∈ setInsert l k ↔ x = k ∨ x ∈ l := by
  induction l with
  | nil => simp [setInsert]
  | cons a t ih =>
    simp only [setInsert]
    by_cases h1 : strLt k a = true
    · rw [if_pos h1]
      simp
    · rw [if_neg h1]
      by_cases h2 : k = a
      · rw [if_pos h2]
        subst h2
        simp
      · rw [if_neg h2]
        simp [ih]
        tauto

theorem setInsert_pairwise (l : List String) (k : String) (h : l.Pairwise (· < ·)) :
    (setInsert l k).Pairwise (· < ·) := by
  induction l with
  | nil => simp [setInsert]
  | cons a t ih =>
    rw [List.pairwise_cons] at h
    simp only [setInsert]
    by_cases h1 : strLt k a = true
    · have h1' : k < a := (strLt_iff k a).mp h1
      rw [if_pos h1, List.pairwise_cons]
      refine ⟨?_, List.pairwise_cons.mpr h⟩
      intro b hb
      rcases List.mem_cons.mp hb with hb | hb
      · subst hb; exact h1'
      · exact lt_trans h1' (h.1 b hb)
    · rw [if_neg h1]
      by_cases h2 : k = a
      · rw [if_pos h2]
        exact List.pairwise_cons.mpr h
      · rw [if_neg h2]
        have hak : a < k := by
          rcases lt_trichotomy k a with h3 | h3 | h3
          · exact absurd ((strLt_iff k a).mpr h3) h1
          · exact absurd h3 h2
          · exact h3
        rw [List.pairwise_cons]
        refine ⟨?_, ih h.2⟩
        intro b hb
        rcases (setInsert_mem t k b).mp hb with hb | hb
        · subst hb; exact hak
        · exact h.1 b hb

theorem foldl_setInsert_mem (l : List String) :
    ∀ (acc : List String) (x : String), x ∈ l.foldl setInsert acc ↔ x ∈ acc ∨ x ∈ l := by
  induction l with
  | nil => simp
  | cons a t ih =>
    intro acc x
    rw [List.foldl_cons, ih (setInsert acc a) x, setInsert_mem]
    simp
    tauto

theorem foldl_setInsert_pairwise (l : List String) :
    ∀ (acc : List String), acc.Pairwise (· < ·) → (l.foldl setInsert acc).Pairwise (· < ·) := by
  induction l with
  | nil => intro acc h; exact h
  | cons a t ih =>
    intro acc h
    exact ih (setInsert acc a) (setInsert_pairwise acc a h)

theorem setOfList_mem (l : List String) (x : String) : x ∈ setOfList l ↔ x ∈ l := by
  rw [setOfList, foldl_setInsert_mem]
  simp

theorem setOfList_pairwise (l : List String) : (setOfList l).Pairwise (· < ·) :=
  foldl_setInsert_pairwise l [] (List.Pairwise.nil)

theorem sorted_ext (l : List String) : ∀ (l' : List String), l.Pairwise (· < ·) →
    l'.Pairwise (· < ·) → (∀ x, x ∈ l ↔ x ∈ l') → l = l' := by
  induction l with
  | nil =>
    intro l' _ _ hm
    cases l' with
    | nil => rfl
    | cons b s => exact absurd ((hm b).mpr (List.mem_cons_self b s)) (List.not_mem_nil b)
  | cons a t ih =>
    intro l' h h' hm
    cases l' with
    | nil => exact absurd ((hm a).mp (List.mem_cons_self a t)) (List.not_mem_nil a)
    | cons b s =>
      rw [List.pairwise_cons] at h h'
      have hab : a = b := by
        rcases List.mem_cons.mp ((hm a).mp (List.mem_cons_self a t)) with h1 | h1
        · exact h1
        · rcases List.mem_cons.mp ((hm b).mpr (List.mem_cons_self b s)) with h2 | h2
          · exact h2.symm
          · exact absurd (lt_trans (h'.1 a h1) (h.1 b h2)) (lt_irrefl b)
      subst hab
      have htails : ∀ x, x ∈ t ↔ x ∈ s := by
        intro x
        constructor
        · intro hx
          rcases List.mem_cons.mp ((hm x).mp (List.mem_cons.mpr (Or.inr hx))) with h1 | h1
          · exact absurd (h1 ▸ h.1 x hx) (lt_irrefl x)
          · exact h1
        · intro hx
          rcases List.mem_cons.mp ((hm x).mpr (List.mem_cons.mpr (Or.inr hx))) with h1 | h1
          · exact absurd (h1 ▸ h'.1 x hx) (lt_irrefl x)
          · exact h1
      rw [ih s h.2 h'.2 htails]

/-! ## Lemmas on the sorted association list model -/

theorem mapInsert_mem {V : Type} (m : List (String × V)) (k : String) (v : V) (p : String × V) :
    p ∈ mapInsert m k v → p = (k, v) ∨ p ∈ m := by
  induction m with
  | nil => simp [mapInsert]
  | cons q t ih =>
    simp only [mapInsert]
    by_cases h1 : strLt k q.1 = true
    · rw [if_pos h1]
      simp
    · rw [if_neg h1]
      by_cases h2 : k = q.1
      · rw [if_pos h2]
        simp
        tauto
      · rw [if_neg h2]
        intro hp
        rcases List.mem_cons.mp hp with hp | hp
        · exact Or.inr (List.mem_cons.mpr (Or.inl hp))
        · rcases ih hp with hp | hp
          · exact Or.inl hp
          · exact Or.inr (List.mem_cons.mpr (Or.inr hp))

theorem mapInsert_pairwise {V : Type} (m : List (String × V)) (k : String) (v : V)
    (h : m.Pairwise fun p q => p.1 < q.1) :
    (mapInsert m k v).Pairwise fun p q => p.1 < q.1 := by
  induction m with
  | nil => simp [mapInsert]
  | cons q t ih =>
    rw [List.pairwise_cons] at h
    simp only [mapInsert]
    by_cases h1 : strLt k q.1 = true
    · have h1' : k < q.1 := (strLt_iff k q.1).mp h1
      rw [if_pos h1, List.pairwise_cons]
      refine ⟨?_, List.pairwise_cons.mpr h⟩
      intro p hp
      rcases List.mem_cons.mp hp with hp | hp
      · subst hp; exact h1'
      · exact lt_trans h1' (h.1 p hp)
    · rw [if_neg h1]
      by_cases h2 : k = q.1
      · rw [if_pos h2, List.pairwise_cons]
        refine ⟨?_, h.2⟩
        intro p hp
        rw [show (k, v).1 = k from rfl, h2]
        exact h.1 p hp
      · rw [if_neg h2]
        have hqk : q.1 < k := by
          rcases lt_trichotomy k q.1 with h3 | h3 | h3
          · exact absurd ((strLt_iff k q.1).mpr h3) h1
          · exact absurd h3 h2
          · exact h3
        rw [List.pairwise_cons]
        refine ⟨?_, ih h.2⟩
        intro p hp
        rcases mapInsert_mem t k v p hp with hp | hp
        · rw [hp]; exact hqk
        · exact h.1 p hp

theorem lookupA_mapInsert_self {V : Type} (m : List (String × V)) (k : String) (v : V) :
    lookupA (mapInsert m k v) k = some v := by
  induction m with
  | nil => simp [mapInsert, lookupA]
  | cons q t ih =>
    simp only [mapInsert]
    by_cases h1 : strLt k q.1 = true
    · rw [if_pos h1]
      simp [lookupA]
    · rw [if_neg h1]
      by_cases h2 : k = q.1
      · rw [if_pos h2]
        simp [lookupA]
      · rw [if_neg h2]
        simp only [lookupA, if_neg h2]
        exact ih

theorem lookupA_mapInsert_ne {V : Type} (m : List (String × V)) (k : String) (v : V)
    (x : String) (hx : x ≠ k) : lookupA (mapInsert m k v) x = lookupA m x := by
  induction m with
  | nil => simp [mapInsert, lookupA, hx]
  | cons q t ih =>
    simp only [mapInsert]
    by_cases h1 : strLt k q.1 = true
    · rw [if_pos h1]
      simp [lookupA, hx]
    · rw [if_neg h1]
      by_cases h2 : k = q.1
      · rw [if_pos h2]
        simp only [lookupA, if_neg hx]
        have hxq : ¬x = q.1 := fun hc => hx (by rw [hc, h2])
        rw [if_neg hxq]
      · rw [if_neg h2]
        simp only [lookupA, ih]

theorem lookupA_eq_none_iff {V : Type} (m : List (String × V)) (k : String) :
    lookupA m k = none ↔ k ∉ m.map Prod.fst := by
  induction m with
  | nil => simp [lookupA]
  | cons q t ih =>
    simp only [lookupA, List.map_cons, List.mem_cons]
    by_cases heq : k = q.1
    · rw [if_pos heq]
      simp [heq]
    · rw [if_neg heq]
      simp [ih, heq]

theorem lookupA_foldl_insert {V : Type} (l : List (String × V)) :
    ∀ (m : List (String × V)) (k : String),
      lookupA (l.foldl (fun m p => mapInsert m p.1 p.2) m) k =
        match lastAssoc l k with
        | some v => some v
        | none => lookupA m k := by
  induction l with
  | nil => intro m k; simp [lastAssoc]
  | cons p t ih =>
    intro m k
    rw [List.foldl_cons, ih (mapInsert m p.1 p.2) k]
    show _ = (match (match lastAssoc t k with
      | some v => some v
      | none => if k = p.1 then some p.2 else none) with
      | some v => some v
      | none => lookupA m k)
    cases hL : lastAssoc t k with
    | some v => rfl
    | none =>
      show lookupA (mapInsert m p.1 p.2) k = _
      by_cases hk : k = p.1
      · subst hk
        simp [lookupA_mapInsert_self]
      · simp [lookupA_mapInsert_ne m p.1 p.2 k hk, hk]

theorem lookupA_buildMap {V : Type} (l : List (String × V)) (k : String) :
    lookupA (buildMap l) k = lastAssoc l k := by
  rw [buildMap, lookupA_foldl_insert]
  cases hL : lastAssoc l k with
  | some v => rfl
  | none => rfl

theorem buildMap_pairwise {V : Type} (l : List (String × V)) :
    (buildMap l).Pairwise fun p q => p.1 < q.1 := by
  rw [buildMap]
  have aux : ∀ (l' : List (String × V)) (m : List (String × V)),
      (m.Pairwise fun p q => p.1 < q.1) →
      ((l'.foldl (fun m p => mapInsert m p.1 p.2) m).Pairwise fun p q => p.1 < q.1) := by
    intro l'
    induction l' with
    | nil => intro m h; exact h
    | cons p t ih => intro m h; exact ih (mapInsert m p.1 p.2) (mapInsert_pairwise m p.1 p.2 h)
  exact aux l [] List.Pairwise.nil

theorem lastAssoc_eq_none_iff {V : Type} (m : List (String × V)) (k : String) :
    lastAssoc m k = none ↔ k ∉ m.map Prod.fst := by
  induction m with
  | nil => simp [lastAssoc]
  | cons p t ih =>
    simp only [lastAssoc, List.map_cons, List.mem_cons]
    cases hL : lastAssoc t k with
    | some w =>
      have : k ∈ t.map Prod.fst := by
        by_contra hc
        rw [← ih] at hc
        rw [hc] at hL
        exact Option.noConfusion hL
      simp [this]
    | none =>
      rw [hL] at ih
      by_cases hk : k = p.1
      · simp [hk]
      · simp [hk, ih.mp rfl]

theorem lastAssoc_eq_some_iff {V : Type} (l : List (String × V)) (k : String) (v : V)
    (h : (l.map Prod.fst).Nodup) : lastAssoc l k = some v ↔ (k, v) ∈ l := by
  induction l with
  | nil => simp [lastAssoc]
  | cons p t ih =>
    rw [List.map_cons, List.nodup_cons] at h
    simp only [lastAssoc, List.mem_cons]
    cases hL : lastAssoc t k with
    | some w =>
      have hkt : k ∈ t.map Prod.fst := by
        by_contra hc
        rw [← lastAssoc_eq_none_iff] at hc
        rw [hc] at hL
        exact Option.noConfusion hL
      have hne : ¬(k, v) = p := by
        intro hc
        apply h.1
        rw [← hc]
        exact hkt
      rw [← ih h.2, hL]
      simp [hne]
    | none =>
      have hkt : k ∉ t.map Prod.fst := (lastAssoc_eq_none_iff t k).mp hL
      have hnt : (k, v) ∉ t := by
        intro hc
        exact hkt (List.mem_map.mpr ⟨(k, v), hc, rfl⟩)
      by_cases hk : k = p.1
      · subst hk
        simp only [if_pos rfl]
        constructor
        · intro hv
          left
          cases p
          simp at hv ⊢
          exact hv.symm
        · intro hv
          rcases hv with hv | hv
          · cases p
            simp at hv ⊢
            exact hv.symm
          · exact absurd hv hnt
      · rw [if_neg hk]
        constructor
        · intro hc; exact Option.noConfusion hc
        · intro hv
          rcases hv with hv | hv
          · exact absurd (by rw [← hv]) hk
          · exact absurd hv hnt

theorem lastAssoc_perm {V : Type} (l l' : List (String × V)) (hp : l.Perm l')
    (h : (l.map Prod.fst).Nodup) (k : String) : lastAssoc l k = lastAssoc l' k := by
  have h' : (l'.map Prod.fst).Nodup := ((hp.map Prod.fst).nodup_iff).mp h
  cases hL : lastAssoc l k with
  | some v =>
    have := (lastAssoc_eq_some_iff l k v h).mp hL
    exact ((lastAssoc_eq_some_iff l' k v h').mpr (hp.mem_iff.mp this)).symm
  | none =>
    have := (lastAssoc_eq_none_iff l k).mp hL
    have hk' : k ∉ l'.map Prod.fst := by
      intro hc
      exact this (((hp.map Prod.fst).mem_iff).mpr hc)
    exact ((lastAssoc_eq_none_iff l' k).mpr hk').symm

theorem lookupA_cons_self {V : Type} (p : String × V) (t : List (String × V)) :
    lookupA (p :: t) p.1 = some p.2 := by
  simp [lookupA]

theorem assoc_sorted_ext {V : Type} (m : List (String × V)) :
    ∀ (m' : List (String × V)), (m.Pairwise fun p q => p.1 < q.1) →
      (m'.Pairwise fun p q => p.1 < q.1) → (∀ k, lookupA m k = lookupA m' k) → m = m' := by
  induction m with
  | nil =>
    intro m' _ _ hl
    cases m' with
    | nil => rfl
    | cons q s =>
      have := hl q.1
      rw [lookupA_cons_self] at this
      exact Option.noConfusion this
  | cons p t ih =>
    intro m' h h' hl
    cases m' with
    | nil =>
      have := hl p.1
      rw [lookupA_cons_self] at this
      exact Option.noConfusion this
    | cons q s =>
      rw [List.pairwise_cons] at h h'
      have hkeys : p.1 = q.1 := by
        rcases lt_trichotomy p.1 q.1 with h1 | h1 | h1
        · exfalso
          have hp := hl p.1
          rw [lookupA_cons_self] at hp
          have hnone : lookupA (q :: s) p.1 = none := by
            rw [lookupA_eq_none_iff, List.map_cons]
            intro hc
            rcases List.mem_cons.mp hc with hc | hc
            · exact absurd hc (ne_of_lt h1)
            · obtain ⟨r, hr, hr1⟩ := List.mem_map.mp hc
              exact absurd (hr1 ▸ h'.1 r hr) (not_lt.mpr (le_of_lt h1))
          rw [hnone] at hp
          exact Option.noConfusion hp
        · exact h1
        · exfalso
          have hq := hl q.1
          rw [lookupA_cons_self] at hq
          have hnone : lookupA (p :: t) q.1 = none := by
            rw [lookupA_eq_none_iff, List.map_cons]
            intro hc
            rcases List.mem_cons.mp hc with hc | hc
            · exact absurd hc (ne_of_lt h1)
            · obtain ⟨r, hr, hr1⟩ := List.mem_map.mp hc
              exact absurd (hr1 ▸ h.1 r hr) (not_lt.mpr (le_of_lt h1))
          rw [hnone] at hq
          exact Option.noConfusion hq
      have hvals : p.2 = q.2 := by
        have hp := hl p.1
        rw [lookupA_cons_self] at hp
        have : lookupA (q :: s) p.1 = some q.2 := by
          rw [hkeys]
          exact lookupA_cons_self q s
        rw [this] at hp
        exact Option.some.inj hp
      have hpq : p = q := Prod.ext hkeys hvals
      subst hpq
      have htails : ∀ k, lookupA t k = lookupA s k := by
        intro k
        by_cases hk : k = p.1
        · subst hk
          have ht : lookupA t p.1 = none := by
            rw [lookupA_eq_none_iff]
            intro hc
            obtain ⟨r, hr, hr1⟩ := List.mem_map.mp hc
            exact absurd (hr1 ▸ h.1 r hr) (lt_irrefl p.1)
          have hs : lookupA s p.1 = none := by
            rw [lookupA_eq_none_iff]
            intro hc
            obtain ⟨r, hr, hr1⟩ := List.mem_map.mp hc
            exact absurd (hr1 ▸ h'.1 r hr) (lt_irrefl p.1)
          rw [ht, hs]
        · have := hl k
          simp only [lookupA, if_neg hk] at this
          exact this
      rw [ih s h.2 h'.2 htails]

theorem buildMap_perm {V : Type} (l l' : List (String × V)) (hp : l.Perm l')
    (h : (l.map Prod.fst).Nodup) : buildMap l = buildMap l' :=
  assoc_sorted_ext (buildMap l) (buildMap l') (buildMap_pairwise l) (buildMap_pairwise l')
    fun k => by rw [lookupA_buildMap, lookupA_buildMap, lastAssoc_perm l l' hp h k]

/-! ## Stability of the sort: a stable sort of a name sorted list is ordered
by key descending with ascending names on ties -/

theorem orderedInsert_pairwise_lex {α : Type} (key : α → ℕ) (nm : α → String) (x : α)
    (s : List α)
    (hs : s.Pairwise fun a b => key b < key a ∨ (key a = key b ∧ nm a < nm b))
    (hx : ∀ y ∈ s, nm x < nm y) :
    (List.orderedInsert (fun a b => key b ≤ key a) x s).Pairwise
      fun a b => key b < key a ∨ (key a = key b ∧ nm a < nm b) := by
  induction s with
  | nil => simp
  | cons y t ih =>
    rw [List.pairwise_cons] at hs
    rw [List.orderedInsert]
    by_cases hr : key y ≤ key x
    · rw [if_pos hr, List.pairwise_cons]
      constructor
      · intro b hb
        rcases List.mem_cons.mp hb with hb | hb
        · subst hb
          rcases lt_or_eq_of_le hr with h | h
          · exact Or.inl h
          · exact Or.inr ⟨h.symm, hx b (List.mem_cons_self b t)⟩
        · rcases hs.1 b hb with h | h
          · exact Or.inl (lt_of_lt_of_le h hr)
          · rcases lt_or_eq_of_le (le_trans (le_of_eq h.1.symm) hr) with h2 | h2
            · exact Or.inl h2
            · exact Or.inr ⟨h2.symm, hx b (List.mem_cons.mpr (Or.inr hb))⟩
      · exact List.pairwise_cons.mpr hs
    · rw [if_neg hr, List.pairwise_cons]
      constructor
      · intro b hb
        rcases (List.mem_orderedInsert _).mp hb with hb | hb
        · subst hb
          exact Or.inl (lt_of_not_le hr)
        · exact hs.1 b hb
      · exact ih hs.2 fun z hz => hx z (List.mem_cons.mpr (Or.inr hz))

theorem sortByKeyDesc_pairwise_lex {α : Type} (key : α → ℕ) (nm : α → String) (l : List α)
    (h : l.Pairwise fun a b => nm a < nm b) :
    (sortByKeyDesc key l).Pairwise
      fun a b => key b < key a ∨ (key a = key b ∧ nm a < nm b) := by
  induction l with
  | nil => simp [sortByKeyDesc]
  | cons x t ih =>
    rw [List.pairwise_cons] at h
    rw [sortByKeyDesc, List.insertionSort]
    apply orderedInsert_pairwise_lex
    · exact ih h.2
    · intro y hy
      exact h.1 y ((List.perm_insertionSort _ t).mem_iff.mp hy)

theorem sortByKeyDesc_perm {α : Type} (key : α → ℕ) (l : List α) :
    (sortByKeyDesc key l).Perm l :=
  List.perm_insertionSort _ l

theorem orderedInsert_map {α β : Type} (f : α → β) (r : β → β → Prop) (r' : α → α → Prop)
    [DecidableRel r] [DecidableRel r'] (hf : ∀ a b, r (f a) (f b) ↔ r' a b) (x : α) :
    ∀ (l : List α),
      List.orderedInsert r (f x) (l.map f) = (List.orderedInsert r' x l).map f := by
  intro l
  induction l with
  | nil => rfl
  | cons y t ih =>
    rw [List.map_cons, List.orderedInsert, List.orderedInsert]
    by_cases h : r' x y
    · rw [if_pos ((hf x y).mpr h), if_pos h, List.map_cons, List.map_cons]
    · rw [if_neg (fun hc => h ((hf x y).mp hc)), if_neg h, List.map_cons, ih]

theorem insertionSort_map {α β : Type} (f : α → β) (r : β → β → Prop) (r' : α → α → Prop)
    [DecidableRel r] [DecidableRel r'] (hf : ∀ a b, r (f a) (f b) ↔ r' a b) (l : List α) :
    List.insertionSort r (l.map f) = (List.insertionSort r' l).map f := by
  induction l with
  | nil => rfl
  | cons x t ih =>
    rw [List.map_cons, List.insertionSort, List.insertionSort, ih,
      orderedInsert_map f r r' hf x]

theorem sortByKeyDesc_map {α β : Type} (f : α → β) (keyb : β → ℕ) (keya : α → ℕ)
    (hf : ∀ a, keyb (f a) = keya a) (l : List α) :
    sortByKeyDesc keyb (l.map f) = (sortByKeyDesc keya l).map f := by
  rw [sortByKeyDesc, sortByKeyDesc]
  exact insertionSort_map f _ _ (fun a b => by rw [hf a, hf b]) l

/-! ## Helper lemmas on the report pipeline -/

theorem symFind_name (m : List AggregateSymbol) (n : String) (a : AggregateSymbol)
    (h : symFind m n = some a) : a.name = n := by
  have := List.find?_some h
  simpa using this

theorem fnFind_name (m : List AggregateLlvmFunction) (n : String) (a : AggregateLlvmFunction)
    (h : fnFind m n = some a) : a.name = n := by
  have := List.find?_some h
  simpa using this

theorem comparativeCrates_pairwise_name (base cur : BuildContext) :
    (comparativeCrates base cur).Pairwise fun a b => a.name < b.name := by
  unfold comparativeCrates
  apply List.Pairwise.filter
  rw [List.pairwise_map]
  exact setOfList_pairwise _

theorem sortedCrates_pairwise (base cur : BuildContext) :
    (sortedComparativeCrates base cur).Pairwise crateLex := by
  unfold sortedComparativeCrates crateLex
  exact sortByKeyDesc_pairwise_lex (fun c => c.diff.natAbs) (fun c => c.name)
    (comparativeCrates base cur) (comparativeCrates_pairwise_name base cur)

theorem sortedCrates_diff_ne (base cur : BuildContext) :
    ∀ e ∈ sortedComparativeCrates base cur, e.diff ≠ 0 := by
  intro e he
  have hmem : e ∈ comparativeCrates base cur :=
    (sortByKeyDesc_perm _ _).mem_iff.mp he
  unfold comparativeCrates at hmem
  have := (List.mem_filter.mp hmem).2
  simpa using this

theorem csName_entry (base cur : BuildContext) (n : String)
    (h : (((symFind cur.symMap n).map fun a => a.total_size).getD 0 : ℤ) -
      (((symFind base.symMap n).map fun a => a.total_size).getD 0 : ℤ) ≠ 0) :
    csName
      { old := symFind base.symMap n
        new := symFind cur.symMap n
        size_diff := (((symFind cur.symMap n).map fun a => a.total_size).getD 0 : ℤ) -
          (((symFind base.symMap n).map fun a => a.total_size).getD 0 : ℤ) } = n := by
  unfold csName
  cases h2 : symFind cur.symMap n with
  | some a => exact symFind_name _ _ _ h2
  | none =>
    cases h1 : symFind base.symMap n with
    | some a => exact symFind_name _ _ _ h1
    | none =>
      rw [h1, h2] at h
      simp at h

theorem cfName_entry (base cur : BuildContext) (n : String)
    (h : (((fnFind (fnRetained cur) n).map fun f => f.total_llvm_lines).getD 0 : ℤ) -
      (((fnFind (fnRetained base) n).map fun f => f.total_llvm_lines).getD 0 : ℤ) ≠ 0) :
    cfName
      { old := fnFind (fnRetained base) n
        new := fnFind (fnRetained cur) n
        line_diff := (((fnFind (fnRetained cur) n).map fun f => f.total_llvm_lines).getD 0 : ℤ) -
          (((fnFind (fnRetained base) n).map fun f => f.total_llvm_lines).getD 0 : ℤ) } = n := by
  unfold cfName
  cases h2 : fnFind (fnRetained cur) n with
  | some a => exact fnFind_name _ _ _ h2
  | none =>
    cases h1 : fnFind (fnRetained base) n with
    | some a => exact fnFind_name _ _ _ h1
    | none =>
      rw [h1, h2] at h
      simp at h

theorem comparativeSyms_filter_pairwise (base cur : BuildContext) :
    ((comparativeSyms base cur).filter fun s => s.size_diff ≠ 0).Pairwise
      fun a b => csName a < csName b := by
  have h1 : (comparativeSyms base cur).Pairwise
      fun a b => a.size_diff ≠ 0 → b.size_diff ≠ 0 → csName a < csName b := by
    unfold comparativeSyms
    rw [List.pairwise_map]
    apply List.Pairwise.imp ?_ (setOfList_pairwise _)
    intro n₁ n₂ hlt h₁ h₂
    rw [csName_entry base cur n₁ h₁, csName_entry base cur n₂ h₂]
    exact hlt
  have h2 := List.Pairwise.filter (fun s => decide (s.size_diff ≠ 0)) h1
  apply List.Pairwise.imp_of_mem ?_ h2
  intro a b ha hb hab
  exact hab (by simpa using (List.mem_filter.mp ha).2) (by simpa using (List.mem_filter.mp hb).2)

theorem sortedSyms_pairwise (base cur : BuildContext) :
    (sortedComparativeSyms base cur).Pairwise symLex := by
  unfold sortedComparativeSyms symLex
  exact sortByKeyDesc_pairwise_lex (fun s => s.size_diff.natAbs) csName
    ((comparativeSyms base cur).filter fun s => s.size_diff ≠ 0)
    (comparativeSyms_filter_pairwise base cur)

theorem sortedSyms_diff_ne (base cur : BuildContext) :
    ∀ e ∈ sortedComparativeSyms base cur, e.size_diff ≠ 0 := by
  intro e he
  have hmem := (sortByKeyDesc_perm _ _).mem_iff.mp he
  have := (List.mem_filter.mp hmem).2
  simpa using this

theorem comparativeFns_pairwise_name (base cur : BuildContext) :
    (comparativeFns base cur).Pairwise fun a b => cfName a < cfName b := by
  have h1 : ((fnNames base cur).map fun n =>
      ({ old := fnFind (fnRetained base) n
         new := fnFind (fnRetained cur) n
         line_diff := (((fnFind (fnRetained cur) n).map fun f => f.total_llvm_lines).getD 0 : ℤ) -
           (((fnFind (fnRetained base) n).map fun f => f.total_llvm_lines).getD 0 : ℤ) } :
        ComparativeFn)).Pairwise
      fun a b => a.line_diff ≠ 0 → b.line_diff ≠ 0 → cfName a < cfName b := by
    rw [List.pairwise_map]
    apply List.Pairwise.imp ?_ (setOfList_pairwise _)
    intro n₁ n₂ hlt h₁ h₂
    rw [cfName_entry base cur n₁ h₁, cfName_entry base cur n₂ h₂]
    exact hlt
  have h2 := List.Pairwise.filter (fun f => decide (f.line_diff ≠ 0)) h1
  apply List.Pairwise.imp_of_mem ?_ h2
  intro a b ha hb hab
  exact hab (by simpa using (List.mem_filter.mp ha).2) (by simpa using (List.mem_filter.mp hb).2)

theorem sortedFns_pairwise (base cur : BuildContext) :
    (sortedComparativeFns base cur).Pairwise fnLex := by
  unfold sortedComparativeFns fnLex
  exact sortByKeyDesc_pairwise_lex (fun f => f.line_diff.natAbs) cfName
    (comparativeFns base cur) (comparativeFns_pairwise_name base cur)

theorem sortedFns_diff_ne (base cur : BuildContext) :
    ∀ e ∈ sortedComparativeFns base cur, e.line_diff ≠ 0 := by
  intro e he
  have hmem : e ∈ comparativeFns base cur := (sortByKeyDesc_perm _ _).mem_iff.mp he
  unfold comparativeFns at hmem
  have := (List.mem_filter.mp hmem).2
  simpa using this

/-! ## Reflexivity helpers: comparing a build with itself -/

theorem comparativeCrates_self (B : BuildContext) : comparativeCrates B B = [] := by
  unfold comparativeCrates
  rw [List.filter_eq_nil_iff]
  intro c hc
  obtain ⟨n, hn, rfl⟩ := List.mem_map.mp hc
  simp

theorem sortedCrates_self (B : BuildContext) : sortedComparativeCrates B B = [] := by
  rw [sortedComparativeCrates, comparativeCrates_self]
  rfl

theorem sortedSyms_self (B : BuildContext) : sortedComparativeSyms B B = [] := by
  rw [sortedComparativeSyms]
  have h : (comparativeSyms B B).filter (fun s => s.size_diff ≠ 0) = [] := by
    rw [List.filter_eq_nil_iff]
    intro s hs
    obtain ⟨n, hn, rfl⟩ := List.mem_map.mp hs
    simp
  rw [h]
  rfl

theorem sortedFns_self (B : BuildContext) : sortedComparativeFns B B = [] := by
  rw [sortedComparativeFns]
  have h : comparativeFns B B = [] := by
    unfold comparativeFns
    rw [List.filter_eq_nil_iff]
    intro f hf
    obtain ⟨n, hn, rfl⟩ := List.mem_map.mp hf
    simp
  rw [h]
  rfl

theorem unitless_diff_self (x : ℤ) : unitless_diff x x = " (➖ no change)" := by
  unfold unitless_diff
  norm_num

theorem bytes_diff_self (x : ℕ) : bytes_diff x x = " (➖ no change)" := by
  unfold bytes_diff
  norm_num

theorem wall_diff_self (q : ℚ) : wall_diff q q = " (➖ no change)" := by
  unfold wall_diff
  norm_num

/-! ## Antisymmetry helpers: swapping baseline and current -/

theorem crateNames_symm (A B : BuildContext) : crateNames A B = crateNames B A := by
  apply sorted_ext _ _ (setOfList_pairwise _) (setOfList_pairwise _)
  intro x
  rw [setOfList_mem, setOfList_mem, List.mem_append, List.mem_append]
  tauto

theorem symbolNames_symm (A B : BuildContext) : symbolNames A B = symbolNames B A := by
  apply sorted_ext _ _ (setOfList_pairwise _) (setOfList_pairwise _)
  intro x
  rw [setOfList_mem, setOfList_mem, List.mem_append, List.mem_append]
  tauto

theorem fnNames_symm (A B : BuildContext) : fnNames A B = fnNames B A := by
  apply sorted_ext _ _ (setOfList_pairwise _) (setOfList_pairwise _)
  intro x
  rw [setOfList_mem, setOfList_mem, List.mem_append, List.mem_append]
  tauto

theorem comparativeCrates_neg (A B : BuildContext) :
    comparativeCrates A B = (comparativeCrates B A).map negCrateRow := by
  unfold comparativeCrates
  rw [crateNames_symm A B]
  have hmap : (crateNames B A).map (fun n =>
      ({ name := n
         old := lookupA (crateSizeMap A) n
         new := lookupA (crateSizeMap B) n
         diff := ((lookupA (crateSizeMap B) n).getD 0 : ℤ) -
           ((lookupA (crateSizeMap A) n).getD 0 : ℤ) } : ComparativeCrate)) =
      ((crateNames B A).map fun n =>
        ({ name := n
           old := lookupA (crateSizeMap B) n
           new := lookupA (crateSizeMap A) n
           diff := ((lookupA (crateSizeMap A) n).getD 0 : ℤ) -
             ((lookupA (crateSizeMap B) n).getD 0 : ℤ) } : ComparativeCrate)).map
        negCrateRow := by
    rw [List.map_map]
    apply List.map_congr_left
    intro n _
    show _ = negCrateRow _
    unfold negCrateRow
    rw [neg_sub]
  rw [hmap, List.filter_map]
  congr 1
  apply List.filter_congr
  intro x _
  show decide ((negCrateRow x).diff ≠ 0) = decide (x.diff ≠ 0)
  exact decide_eq_decide.mpr neg_ne_zero

theorem sortedCrates_neg (A B : BuildContext) :
    sortedComparativeCrates A B = (sortedComparativeCrates B A).map negCrateRow := by
  rw [sortedComparativeCrates, sortedComparativeCrates, comparativeCrates_neg A B]
  exact sortByKeyDesc_map negCrateRow _ _ (fun c => by simp [negCrateRow]) _

theorem comparativeSyms_neg (A B : BuildContext) :
    comparativeSyms A B = (comparativeSyms B A).map negSymRow := by
  unfold comparativeSyms
  rw [symbolNames_symm A B, List.map_map]
  apply List.map_congr_left
  intro n _
  show _ = negSymRow _
  unfold negSymRow
  rw [neg_sub]

theorem sortedSyms_neg (A B : BuildContext) :
    sortedComparativeSyms A B = (sortedComparativeSyms B A).map negSymRow := by
  rw [sortedComparativeSyms, sortedComparativeSyms, comparativeSyms_neg A B, List.filter_map]
  have hf : List.filter ((fun s => decide (s.size_diff ≠ 0)) ∘ negSymRow)
      (comparativeSyms B A) =
      List.filter (fun s => decide (s.size_diff ≠ 0)) (comparativeSyms B A) := by
    apply List.filter_congr
    intro x _
    show decide ((negSymRow x).size_diff ≠ 0) = decide (x.size_diff ≠ 0)
    exact decide_eq_decide.mpr neg_ne_zero
  rw [hf]
  exact sortByKeyDesc_map negSymRow _ _ (fun s => by simp [negSymRow]) _

theorem comparativeFns_neg (A B : BuildContext) :
    comparativeFns A B = (comparativeFns B A).map negFnRow := by
  unfold comparativeFns
  rw [fnNames_symm A B]
  have hmap : (fnNames B A).map (fun n =>
      ({ old := fnFind (fnRetained A) n
         new := fnFind (fnRetained B) n
         line_diff := (((fnFind (fnRetained B) n).map fun f => f.total_llvm_lines).getD 0 : ℤ) -
           (((fnFind (fnRetained A) n).map fun f => f.total_llvm_lines).getD 0 : ℤ) } :
        ComparativeFn)) =
      ((fnNames B A).map fun n =>
        ({ old := fnFind (fnRetained B) n
           new := fnFind (fnRetained A) n
           line_diff := (((fnFind (fnRetained A) n).map fun f => f.total_llvm_lines).getD 0 : ℤ) -
             (((fnFind (fnRetained B) n).map fun f => f.total_llvm_lines).getD 0 : ℤ) } :
          ComparativeFn)).map negFnRow := by
    rw [List.map_map]
    apply List.map_congr_left
    intro n _
    show _ = negFnRow _
    unfold negFnRow
    rw [neg_sub]
  rw [hmap, List.filter_map]
  congr 1
  apply List.filter_congr
  intro x _
  show decide ((negFnRow x).line_diff ≠ 0) = decide (x.line_diff ≠ 0)
  exact decide_eq_decide.mpr neg_ne_zero

theorem sortedFns_neg (A B : BuildContext) :
    sortedComparativeFns A B = (sortedComparativeFns B A).map negFnRow := by
  rw [sortedComparativeFns, sortedComparativeFns, comparativeFns_neg A B]
  exact sortByKeyDesc_map negFnRow _ _ (fun f => by simp [negFnRow]) _

/-! ## Claim theorems -/

/-- C1: for every pair of BuildContexts, each of the three delta lists built
by generate_reports (per crate, per symbol, per IR function) contains no
entry with zero delta, and is ordered by absolute delta descending with
lexicographic name ascending as the tie breaker. -/
theorem delta_lists_elide_zero_and_sorted (base cur : BuildContext) :
    ((∀ e ∈ (generate_reports base cur).crateList, e.diff ≠ 0) ∧
      (generate_reports base cur).crateList.Pairwise crateLex) ∧
    ((∀ e ∈ (generate_reports base cur).symList, e.size_diff ≠ 0) ∧
      (generate_reports base cur).symList.Pairwise symLex) ∧
    ((∀ e ∈ (generate_reports base cur).fnList, e.line_diff ≠ 0) ∧
      (generate_reports base cur).fnList.Pairwise fnLex) :=
  ⟨⟨sortedCrates_diff_ne base cur, sortedCrates_pairwise base cur⟩,
    ⟨sortedSyms_diff_ne base cur, sortedSyms_pairwise base cur⟩,
    ⟨sortedFns_diff_ne base cur, sortedFns_pairwise base cur⟩⟩

/-- C3: every scalar delta computed by generate_reports (crate count,
symbol count, text size, IR line count, wall duration) and every per name
delta in the three lists when comparing A to B is the exact negation of the
corresponding delta when comparing B to A; the delta lists are the
entrywise mirrors of each other, in the same order. -/
theorem report_antisymmetry (A B : BuildContext) :
    crateCountDelta A B = -crateCountDelta B A ∧
    symbolCountDelta A B = -symbolCountDelta B A ∧
    textSizeDelta A B = -textSizeDelta B A ∧
    llvmLinesDelta A B = -llvmLinesDelta B A ∧
    wallDelta A B = -wallDelta B A ∧
    (generate_reports A B).crateList = ((generate_reports B A).crateList).map negCrateRow ∧
    (generate_reports A B).symList = ((generate_reports B A).symList).map negSymRow ∧
    (generate_reports A B).fnList = ((generate_reports B A).fnList).map negFnRow :=
  ⟨by unfold crateCountDelta; ring, by unfold symbolCountDelta; ring,
    by unfold textSizeDelta; ring, by unfold llvmLinesDelta; ring,
    by unfold wallDelta; ring,
    sortedCrates_neg A B, sortedSyms_neg A B, sortedFns_neg A B⟩

/-- C4: the markdown tables list at most 10 crates, 20 symbols and 20 IR
functions, selected by largest absolute delta (every excluded row has
absolute delta at most that of every detailed row, and detailed plus
excluded is the whole list); the remaining entries are summarized in a
single row whose before and after values are the sums over the excluded
entries and whose delta is the signed difference of those sums. -/
theorem table_truncation (base cur : BuildContext) :
    ((generate_reports base cur).crateDetailed.length ≤ 10 ∧
      (generate_reports base cur).crateDetailed ++ (generate_reports base cur).crateExcluded =
        (generate_reports base cur).crateList ∧
      (∀ a ∈ (generate_reports base cur).crateDetailed,
        ∀ b ∈ (generate_reports base cur).crateExcluded, b.diff.natAbs ≤ a.diff.natAbs) ∧
      (generate_reports base cur).crateSummary.1 =
        ((generate_reports base cur).crateExcluded.map fun c => c.old.getD 0).sum ∧
      (generate_reports base cur).crateSummary.2.1 =
        ((generate_reports base cur).crateExcluded.map fun c => c.new.getD 0).sum ∧
      (generate_reports base cur).crateSummary.2.2 =
        ((generate_reports base cur).crateSummary.2.1 : ℤ) -
          ((generate_reports base cur).crateSummary.1 : ℤ)) ∧
    ((generate_reports base cur).symDetailed.length ≤ 20 ∧
      (generate_reports base cur).symDetailed ++ (generate_reports base cur).symExcluded =
        (generate_reports base cur).symList ∧
      (∀ a ∈ (generate_reports base cur).symDetailed,
        ∀ b ∈ (generate_reports base cur).symExcluded,
          b.size_diff.natAbs ≤ a.size_diff.natAbs) ∧
      (generate_reports base cur).symSummary.1 =
        ((generate_reports base cur).symExcluded.map fun s =>
          (s.old.map fun a => a.total_size).getD 0).sum ∧
      (generate_reports base cur).symSummary.2.1 =
        ((generate_reports base cur).symExcluded.map fun s =>
          (s.new.map fun a => a.total_size).getD 0).sum ∧
      (generate_reports base cur).symSummary.2.2 =
        ((generate_reports base cur).symSummary.2.1 : ℤ) -
          ((generate_reports base cur).symSummary.1 : ℤ)) ∧
    ((generate_reports base cur).fnDetailed.length ≤ 20 ∧
      (generate_reports base cur).fnDetailed ++ (generate_reports base cur).fnExcluded =
        (generate_reports base cur).fnList ∧
      (∀ a ∈ (generate_reports base cur).fnDetailed,
        ∀ b ∈ (generate_reports base cur).fnExcluded,
          b.line_diff.natAbs ≤ a.line_diff.natAbs) ∧
      (generate_reports base cur).fnSummary.1 =
        ((generate_reports base cur).fnExcluded.map fun f =>
          (f.old.map fun a => a.total_llvm_lines).getD 0).sum ∧
      (generate_reports base cur).fnSummary.2.1 =
        ((generate_reports base cur).fnExcluded.map fun f =>
          (f.new.map fun a => a.total_llvm_lines).getD 0).sum ∧
      (generate_reports base cur).fnSummary.2.2 =
        ((generate_reports base cur).fnSummary.2.1 : ℤ) -
          ((generate_reports base cur).fnSummary.1 : ℤ)) := by
  refine ⟨⟨List.length_take_le 10 _, List.take_append_drop 10 _, ?_, rfl, rfl, rfl⟩,
    ⟨List.length_take_le 20 _, List.take_append_drop 20 _, ?_, rfl, rfl, rfl⟩,
    ⟨List.length_take_le 20 _, List.take_append_drop 20 _, ?_, rfl, rfl, rfl⟩⟩
  · intro a ha b hb
    have hp : (sortedComparativeCrates base cur).Pairwise crateLex :=
      sortedCrates_pairwise base cur
    rw [← List.take_append_drop 10 (sortedComparativeCrates base cur)] at hp
    have := (List.pairwise_append.mp hp).2.2 a ha b hb
    rcases this with h | h
    · exact le_of_lt h
    · exact le_of_eq h.1.symm
  · intro a ha b hb
    have hp : (sortedComparativeSyms base cur).Pairwise symLex :=
      sortedSyms_pairwise base cur
    rw [← List.take_append_drop 20 (sortedComparativeSyms base cur)] at hp
    have := (List.pairwise_append.mp hp).2.2 a ha b hb
    rcases this with h | h
    · exact le_of_lt h
    · exact le_of_eq h.1.symm
  · intro a ha b hb
    have hp : (sortedComparativeFns base cur).Pairwise fnLex :=
      sortedFns_pairwise base cur
    rw [← List.take_append_drop 20 (sortedComparativeFns base cur)] at hp
    have := (List.pairwise_append.mp hp).2.2 a ha b hb
    rcases this with h | h
    · exact le_of_lt h
    · exact le_of_eq h.1.symm

/-- The crate size map is a function of the set of crates: permuting the
crate sequence (with distinct names) leaves the BTreeMap unchanged. -/
theorem crateSizeMap_perm (A A' : BuildContext) (hp : A'.crates.Perm A.crates)
    (hnd : (A'.crates.map fun c => c.name).Nodup) : crateSizeMap A' = crateSizeMap A := by
  unfold crateSizeMap
  apply buildMap_perm
  · exact hp.map _
  · rw [List.map_map]
    exact hnd

/-- C9: generate_reports is deterministic; its entire output, including the
order of elements within every list, depends only on the canonical content
of the two builds.  In particular, permuting the crate sequence or the
deps symbol sequence of either input (the collections the source stores in
order independent containers) leaves the reports byte for byte unchanged,
and equal inputs give equal reports. -/
theorem generate_reports_deterministic (A A' B B' : BuildContext)
    (hAc : A'.crates.Perm A.crates) (hAd : A'.deps_symbols.Perm A.deps_symbols)
    (hAt : A'.text_size = A.text_size) (hAs : A'.symMap = A.symMap)
    (hAf : A'.fnMap = A.fnMap) (hAl : A'.numLlvmLines = A.numLlvmLines)
    (hAw : A'.wall_secs = A.wall_secs)
    (hAn : (A'.crates.map fun c => c.name).Nodup)
    (hBc : B'.crates.Perm B.crates) (hBd : B'.deps_symbols.Perm B.deps_symbols)
    (hBt : B'.text_size = B.text_size) (hBs : B'.symMap = B.symMap)
    (hBf : B'.fnMap = B.fnMap) (hBl : B'.numLlvmLines = B.numLlvmLines)
    (hBw : B'.wall_secs = B.wall_secs)
    (hBn : (B'.crates.map fun c => c.name).Nodup) :
    generate_reports A' B' = generate_reports A B := by
  have hmA : crateSizeMap A' = crateSizeMap A := crateSizeMap_perm A A' hAc hAn
  have hmB : crateSizeMap B' = crateSizeMap B := crateSizeMap_perm B B' hBc hBn
  have hcr : sortedComparativeCrates A' B' = sortedComparativeCrates A B := by
    unfold sortedComparativeCrates comparativeCrates crateNames
    rw [hmA, hmB]
  have hsy : sortedComparativeSyms A' B' = sortedComparativeSyms A B := by
    unfold sortedComparativeSyms comparativeSyms symbolNames
    rw [hAs, hBs]
  have hfn : sortedComparativeFns A' B' = sortedComparativeFns A B := by
    unfold sortedComparativeFns comparativeFns fnNames fnRetained
    rw [hAf, hBf]
  unfold generate_reports detailedCrates excludedCrates excludedCratesSummary
    detailedSyms excludedSyms excludedSymsSummary detailedFns excludedFns excludedFnsSummary
  rw [hcr, hsy, hfn, hAc.length_eq, hBc.length_eq, hAd.length_eq, hBd.length_eq,
    hAt, hBt, hAl, hBl, hAw, hBw]
  simp only [excludedCrates, excludedSyms, excludedFns, hcr, hsy, hfn]

/-- Witness for C9 at concrete inputs: two crates listed in either order
give identical reports. -/
theorem generate_reports_deterministic_witness :
    generate_reports
      { crates := [{ name := "beta", symbols := [] }, { name := "alpha", symbols := [("s", 5)] }]
        deps_symbols := ["y", "x"]
        text_size := 32
        symMap := [{ name := "s", total_size := 5, crates := ["alpha"] }]
        fnMap := []
        numLlvmLines := 7
        wall_secs := 2 }
      { crates := [{ name := "alpha", symbols := [("s", 9)] }]
        deps_symbols := ["x"]
        text_size := 40
        symMap := [{ name := "s", total_size := 9, crates := ["alpha"] }]
        fnMap := []
        numLlvmLines := 8
        wall_secs := 3 } =
    generate_reports
      { crates := [{ name := "alpha", symbols := [("s", 5)] }, { name := "beta", symbols := [] }]
        deps_symbols := ["x", "y"]
        text_size := 32
        symMap := [{ name := "s", total_size := 5, crates := ["alpha"] }]
        fnMap := []
        numLlvmLines := 7
        wall_secs := 2 }
      { crates := [{ name := "alpha", symbols := [("s", 9)] }]
        deps_symbols := ["x"]
        text_size := 40
        symMap := [{ name := "s", total_size := 9, crates := ["alpha"] }]
        fnMap := []
        numLlvmLines := 8
        wall_secs := 3 } :=
  generate_reports_deterministic _ _ _ _
    (List.Perm.swap _ _ _) (List.Perm.swap _ _ _) rfl rfl rfl rfl rfl (by decide)
    (List.Perm.refl _) (List.Perm.refl _) rfl rfl rfl rfl rfl (by decide)

/-- C2: comparing a BuildContext against itself yields empty crate, symbol
and IR function delta lists, and every scalar total delta (crate count,
symbol count, text size, IR line count, wall duration) is zero and rendered
as no change. -/
theorem self_report_no_change (B : BuildContext) :
    (generate_reports B B).crateList = [] ∧
    (generate_reports B B).symList = [] ∧
    (generate_reports B B).fnList = [] ∧
    crateCountDelta B B = 0 ∧ symbolCountDelta B B = 0 ∧ textSizeDelta B B = 0 ∧
    llvmLinesDelta B B = 0 ∧ wallDelta B B = 0 ∧
    unitless_diff B.crates.length B.crates.length = " (➖ no change)" ∧
    unitless_diff B.deps_symbols.length B.deps_symbols.length = " (➖ no change)" ∧
    bytes_diff B.text_size B.text_size = " (➖ no change)" ∧
    unitless_diff B.numLlvmLines B.numLlvmLines = " (➖ no change)" ∧
    wall_diff B.wall_secs B.wall_secs = " (➖ no change)" :=
  ⟨sortedCrates_self B, sortedSyms_self B, sortedFns_self B,
    sub_self _, sub_self _, sub_self _, sub_self _, sub_self _,
    unitless_diff_self _, unitless_diff_self _, bytes_diff_self _,
    unitless_diff_self _, wall_diff_self _⟩

/-- C5: format_bytes renders byte counts in binary units with divisor 1024,
no decimals below 1 KB and one decimal at or above, with the unit chosen by
the 1024 power thresholds; fmt_thousands equals the specification rendering
(comma every three digits from the right, leading minus when negative);
fixed precision rendering of a nonnegative value always shows exactly the
requested number of decimals; fmt_duration renders seconds with two
decimals under a minute, minutes and seconds under an hour, and hours,
minutes and seconds above. -/
theorem numeric_formatting :
    (∀ b : ℕ, b < 1024 → format_bytes b = natToString b ++ " B") ∧
    (∀ b : ℕ, 1024 ≤ b → ∃ ip fp : ℕ, fp < 10 ∧
      format_bytes b = natToString ip ++ "." ++ natToString fp ++ " " ++ bytesUnit b) ∧
    (∀ n : ℤ, fmt_thousands n = spec_thousands n) ∧
    (∀ q : ℚ, 0 ≤ q → ∀ p : ℕ, 1 ≤ p → ∃ ip fp : ℕ, fp < 10 ^ p ∧
      fmtFixed q p = natToString ip ++ "." ++ String.mk (padZeros (natToString fp).data p) ∧
      (String.mk (padZeros (natToString fp).data p)).length = p) ∧
    (∀ q : ℚ, 0 ≤ q → q < 60 → fmt_duration q = fmtFixed q 2 ++ " s") ∧
    (∀ q : ℚ, 60 ≤ q → q < 3600 →
      fmt_duration q = fmtFixed (⌊q / 60⌋ : ℚ) 0 ++ "m " ++ fmtFixed (ratMod q 60) 1 ++ "s") ∧
    (∀ q : ℚ, 3600 ≤ q →
      fmt_duration q = fmtFixed (⌊q / 3600⌋ : ℚ) 0 ++ "h " ++
        fmtFixed (⌊ratMod q 3600 / 60⌋ : ℚ) 0 ++ "m " ++ fmtFixed (ratMod q 60) 0 ++ "s") := by
  refine ⟨format_bytes_lt, format_bytes_ge, fmt_thousands_eq_spec, fmtFixed_shape,
    ?_, ?_, ?_⟩
  · intro q _ hlt
    unfold fmt_duration
    rw [if_pos hlt]
  · intro q hge hlt
    unfold fmt_duration
    rw [if_neg (not_lt.mpr hge), if_pos hlt]
  · intro q hge
    unfold fmt_duration
    rw [if_neg (not_lt.mpr (le_trans (by norm_num) hge)),
      if_neg (not_lt.mpr hge)]

/-- Witness for C5 at concrete inputs. -/
theorem numeric_formatting_witness :
    format_bytes 500 = natToString 500 ++ " B" ∧
    (∃ ip fp : ℕ, fp < 10 ∧
      format_bytes 1536 = natToString ip ++ "." ++ natToString fp ++ " " ++ bytesUnit 1536) ∧
    fmt_thousands (-1234567) = spec_thousands (-1234567) ∧
    (∃ ip fp : ℕ, fp < 10 ^ 2 ∧
      fmtFixed 30 2 = natToString ip ++ "." ++ String.mk (padZeros (natToString fp).data 2) ∧
      (String.mk (padZeros (natToString fp).data 2)).length = 2) ∧
    fmt_duration 30 = fmtFixed 30 2 ++ " s" ∧
    fmt_duration 90 = fmtFixed (⌊(90 : ℚ) / 60⌋ : ℚ) 0 ++ "m " ++
      fmtFixed (ratMod 90 60) 1 ++ "s" ∧
    fmt_duration 3725 = fmtFixed (⌊(3725 : ℚ) / 3600⌋ : ℚ) 0 ++ "h " ++
      fmtFixed (⌊ratMod 3725 3600 / 60⌋ : ℚ) 0 ++ "m " ++ fmtFixed (ratMod 3725 60) 0 ++ "s" :=
  ⟨numeric_formatting.1 500 (by decide),
    numeric_formatting.2.1 1536 (by decide),
    numeric_formatting.2.2.1 (-1234567),
    numeric_formatting.2.2.2.1 30 (by decide) 2 (by decide),
    numeric_formatting.2.2.2.2.1 30 (by decide) (by decide),
    numeric_formatting.2.2.2.2.2.1 90 (by decide) (by decide),
    numeric_formatting.2.2.2.2.2.2 3725 (by decide)⟩

theorem splitColonsAux_ne_nil : ∀ (acc l : List Char), splitColonsAux acc l ≠ [] := by
  intro acc l
  induction acc, l using splitColonsAux.induct with
  | case1 acc => simp [splitColonsAux]
  | case2 acc t ih => simp [splitColonsAux]
  | case3 acc c t h ih =>
    simp [splitColonsAux, h]
    exact ih

/-- C6 counterexample: for the trait implementation symbol
angle mycrate::MyType as othercrate::Trait angle :: method, the concrete
type T is mycrate::MyType, whose first path segment is mycrate, but the
attribution function returns othercrate, the first path segment of the
trait: the claim as stated is false on this input. -/
theorem trait_impl_attribution_counterexample :
    extract_crate_from_function "<mycrate::MyType as othercrate::Trait>::method" =
      "othercrate" ∧ "othercrate" ≠ "mycrate" := by
  decide

/-- C6 amended: for a demangled symbol of the form
angle T as Trait angle :: method, the attribution function extracts the
path after the as keyword, that is the Trait path, not the concrete type,
and returns its first path segment whenever that segment is a standard
library crate name or identifier like.  The hypotheses pin the structural
occurrences: the first occurrence of the as separator is the structural
one, and the first closing bracket occurrence follows the trait path. -/
theorem trait_impl_attribution_trait_segment (ty tr meth : String)
    (h1 : firstIndexOf ("<" ++ ty ++ " as " ++ tr ++ ">::" ++ meth).data " as ".data =
      some (1 + ty.data.length))
    (h2 : firstIndexOf (tr ++ ">::" ++ meth).data ">::".data = some tr.data.length)
    (h3 : (isStdCrate (splitColons tr.data).headI ||
      identLike (splitColons tr.data).headI) = true) :
    extract_crate_from_function ("<" ++ ty ++ " as " ++ tr ++ ">::" ++ meth) =
      firstPathSegment tr := by
  have hdata : ("<" ++ ty ++ " as " ++ tr ++ ">::" ++ meth).data =
      '<' :: (ty.data ++ " as ".data ++ ((tr ++ ">::" ++ meth).data)) := by
    simp [string_append_data]
  have hhead : ("<" ++ ty ++ " as " ++ tr ++ ">::" ++ meth).data.head? = some '<' := by
    rw [hdata]
    rfl
  have hdrop : ("<" ++ ty ++ " as " ++ tr ++ ">::" ++ meth).data.drop
      (1 + ty.data.length + 4) = (tr ++ ">::" ++ meth).data := by
    rw [hdata]
    have hsplit : ('<' :: (ty.data ++ " as ".data ++ ((tr ++ ">::" ++ meth).data))) =
        (('<' :: (ty.data ++ " as ".data)) ++ (tr ++ ">::" ++ meth).data) := by
      simp
    rw [hsplit]
    have hlen : ('<' :: (ty.data ++ " as ".data)).length = 1 + ty.data.length + 4 := by
      simp [List.length_cons, List.length_append]
      omega
    rw [← hlen, List.drop_left]
  have htake : ((tr ++ ">::" ++ meth).data).take tr.data.length = tr.data := by
    have hsplit : (tr ++ ">::" ++ meth).data = tr.data ++ (">::".data ++ meth.data) := by
      simp [string_append_data]
    rw [hsplit, List.take_left]
  have hclean : cleanedName ("<" ++ ty ++ " as " ++ tr ++ ">::" ++ meth) = tr.data := by
    unfold cleanedName
    rw [if_pos hhead, h1]
    simp only [hdrop, h2, htake]
  have hne := splitColonsAux_ne_nil [] tr.data
  unfold extract_crate_from_function
  rw [hclean]
  show (match splitColons tr.data with
    | [] => "unknown"
    | first :: _ =>
      if isStdCrate first then (⟨first⟩ : String)
      else if identLike first then ⟨first⟩
      else match (splitColons tr.data).find? loopCandidate with
        | some p => ⟨p⟩
        | none => "unknown") = firstPathSegment tr
  cases hparts : splitColons tr.data with
  | nil => exact absurd hparts hne
  | cons first rest =>
    rw [hparts] at h3
    simp only [List.headI] at h3
    unfold firstPathSegment
    rw [hparts]
    simp only [List.headI]
    by_cases hstd : isStdCrate first
    · rw [if_pos hstd]
    · rw [if_neg hstd]
      have hident : identLike first = true := by
        rcases Bool.or_eq_true_iff.mp h3 with h | h
        · exact absurd h hstd
        · exact h
      rw [if_pos hident]

/-- Witness for the amended C6 at a concrete trait implementation symbol. -/
theorem trait_impl_attribution_trait_segment_witness :
    extract_crate_from_function
        ("<" ++ "mycrate::MyType" ++ " as " ++ "othercrate::Trait" ++ ">::" ++ "method") =
      firstPathSegment "othercrate::Trait" :=
  trait_impl_attribution_trait_segment "mycrate::MyType" "othercrate::Trait" "method"
    (by decide) (by decide) (by decide)

/-- C7 counterexample: the symbol consisting of an opening angle bracket
and a letter matches no attribution rule, and the function returns the
string unknown, not the bracketed string the claim names. -/
theorem unknown_bucket_counterexample :
    extract_crate_from_function "<x" = "unknown" ∧ "unknown" ≠ "[unknown]" := by
  decide

/-- C7 amended: every symbol name on which no attribution rule matches (not
a standard library crate, not identifier like, and the fallback loop finds
no candidate segment) is bucketed under the crate name unknown, without
square brackets. -/
theorem unknown_bucket_fallback (s : String) (h : noRuleApplies s = true) :
    extract_crate_from_function s = "unknown" := by
  unfold noRuleApplies at h
  unfold extract_crate_from_function
  show (match splitColons (cleanedName s) with
    | [] => "unknown"
    | first :: _ =>
      if isStdCrate first then (⟨first⟩ : String)
      else if identLike first then ⟨first⟩
      else match (splitColons (cleanedName s)).find? loopCandidate with
        | some p => ⟨p⟩
        | none => "unknown") = "unknown"
  cases hparts : splitColons (cleanedName s) with
  | nil => rfl
  | cons first rest =>
    rw [hparts] at h
    simp only [Bool.and_eq_true, Bool.not_eq_true', Option.isNone_iff_eq_none] at h
    have h1 : ¬isStdCrate first = true := by simp [h.1.1]
    have h2 : ¬identLike first = true := by simp [h.1.2]
    show (if isStdCrate first then (⟨first⟩ : String)
      else if identLike first then ⟨first⟩
      else match (first :: rest).find? loopCandidate with
        | some p => ⟨p⟩
        | none => "unknown") = "unknown"
    rw [if_neg h1, if_neg h2, h.2]

/-- Witness for the amended C7 at a concrete unmatched symbol. -/
theorem unknown_bucket_fallback_witness :
    extract_crate_from_function "<x" = "unknown" :=
  unknown_bucket_fallback "<x" (by decide)

/-- C8 counterexample: invoking the program with the markdown flag and no
path makes main exit with code 1, not 3. -/
theorem markdown_exit_code_counterexample :
    main_invalid_args_exit ["limpid", "--markdown"] = some 1 ∧
    main_invalid_args_exit ["limpid", "--markdown"] ≠ some 3 := by
  decide

theorem parseArgsGo_flag_mode : ∀ (m : Bool) (p : Option String) (l : List String),
    ("--markdown" ∈ l ∨ "-m" ∈ l ∨ m = true) → (parseArgsGo m p l).1 = true := by
  intro m p l
  induction m, p, l using parseArgsGo.induct with
  | case1 m p =>
    intro hf
    rcases hf with hf | hf | hf
    · exact absurd hf (List.not_mem_nil _)
    · exact absurd hf (List.not_mem_nil _)
    · subst hf
      rfl
  | case2 m p a ha =>
    intro _
    show (if a = "--markdown" ∨ a = "-m" then ((true, p) : Bool × Option String)
      else parseArgsGo m p []).1 = true
    rw [if_pos ha]
  | case3 m p a ha b rest2 hdash ih =>
    intro _
    show (if a = "--markdown" ∨ a = "-m" then
        (if b.data.head? = some '-' then parseArgsGo true p (b :: rest2)
         else parseArgsGo true (some b) rest2)
      else parseArgsGo m p (b :: rest2)).1 = true
    rw [if_pos ha, if_pos hdash]
    exact ih (Or.inr (Or.inr rfl))
  | case4 m p a ha b rest2 hdash ih =>
    intro _
    show (if a = "--markdown" ∨ a = "-m" then
        (if b.data.head? = some '-' then parseArgsGo true p (b :: rest2)
         else parseArgsGo true (some b) rest2)
      else parseArgsGo m p (b :: rest2)).1 = true
    rw [if_pos ha, if_neg hdash]
    exact ih (Or.inr (Or.inr rfl))
  | case5 m p a rest hna ih =>
    intro hf
    have hna2 := hna
    rw [not_or] at hna2
    have hmem : "--markdown" ∈ rest ∨ "-m" ∈ rest ∨ m = true := by
      rcases hf with hf | hf | hf
      · rcases List.mem_cons.mp hf with hf | hf
        · exact absurd hf.symm hna2.1
        · exact Or.inl hf
      · rcases List.mem_cons.mp hf with hf | hf
        · exact absurd hf.symm hna2.2
        · exact Or.inr (Or.inl hf)
      · exact Or.inr (Or.inr hf)
    cases rest with
    | nil =>
      rcases hmem with hm | hm | hm
      · exact absurd hm (List.not_mem_nil _)
      · exact absurd hm (List.not_mem_nil _)
      · subst hm
        show (if a = "--markdown" ∨ a = "-m" then ((true, p) : Bool × Option String)
          else parseArgsGo true p []).1 = true
        rw [if_neg hna]
        rfl
    | cons b rest2 =>
      show (if a = "--markdown" ∨ a = "-m" then
          (if b.data.head? = some '-' then parseArgsGo true p (b :: rest2)
           else parseArgsGo true (some b) rest2)
        else parseArgsGo m p (b :: rest2)).1 = true
      rw [if_neg hna]
      exact ih hmem

/-- C8 amended: for every command line in which the markdown flag appears
and the scan ends with no output path recorded, main terminates with exit
code 1 (the source prints a usage error and calls exit(1); the exit code 3
of the claim is never produced). -/
theorem markdown_missing_path_exits_one (name : String) (rest : List String)
    (hflag : "--markdown" ∈ rest ∨ "-m" ∈ rest)
    (hpath : (parse_args (name :: rest)).2 = none) :
    main_invalid_args_exit (name :: rest) = some 1 := by
  unfold main_invalid_args_exit
  have hm : (parse_args (name :: rest)).1 = true := by
    unfold parse_args
    show (parseArgsGo false none ((name :: rest).drop 1)).1 = true
    rw [List.drop_succ_cons, List.drop_zero]
    exact parseArgsGo_flag_mode false none rest (by tauto)
  rw [if_pos ⟨hm, hpath⟩]

/-- Witness for the amended C8 at the concrete invalid command line. -/
theorem markdown_missing_path_exits_one_witness :
    main_invalid_args_exit ("limpid" :: ["--markdown"]) = some 1 :=
  markdown_missing_path_exits_one "limpid" ["--markdown"]
    (Or.inl (by decide)) (by decide)

/-- C10: format_size_diff and format_size_diff_md are total on the i64
range, including the minimal value: the absolute value of the minimal i64
wraps to itself, the conversion to u64 then fails and falls back to the
default 0, so the minimal value renders as a zero byte shrinkage; every
other value renders its absolute byte count with the matching sign, and
zero renders as no change. -/
theorem format_size_diff_total (n : ℤ) (hlo : -(2 ^ 63) ≤ n) (hhi : n < 2 ^ 63) :
    format_size_diff_md n =
      (if n = -(2 ^ 63) then "-0 B"
       else if 0 < n then "+" ++ main_format_bytes n.natAbs
       else if n < 0 then "-" ++ main_format_bytes n.natAbs
       else "no change") ∧
    format_size_diff n =
      (if n = -(2 ^ 63) then ansiWrap "32" "-0 B"
       else if 0 < n then ansiWrap "31" ("+" ++ main_format_bytes n.natAbs)
       else if n < 0 then ansiWrap "32" ("-" ++ main_format_bytes n.natAbs)
       else ansiWrap "90" "no change") := by
  by_cases hmin : n = -(2 ^ 63)
  · subst hmin
    constructor <;> decide
  · have habs : absI64 n = |n| := if_neg hmin
    have hconv : i64ToU64 |n| = some n.natAbs := by
      unfold i64ToU64
      rw [if_pos (abs_nonneg n)]
      congr 1
      rw [Int.abs_eq_natAbs, Int.toNat_natCast]
    unfold format_size_diff_md format_size_diff
    rw [habs, hconv]
    rw [if_neg hmin, if_neg hmin]
    exact ⟨rfl, rfl⟩

/-- Witness for C10 at the minimal i64. -/
theorem format_size_diff_total_witness :
    (-(2 ^ 63) : ℤ) ≤ -(2 ^ 63) ∧ (-(2 ^ 63) : ℤ) < 2 ^ 63 ∧
    (format_size_diff_md (-(2 ^ 63)) =
      (if (-(2 ^ 63) : ℤ) = -(2 ^ 63) then "-0 B"
       else if 0 < (-(2 ^ 63) : ℤ) then "+" ++ main_format_bytes (-(2 ^ 63) : ℤ).natAbs
       else if (-(2 ^ 63) : ℤ) < 0 then "-" ++ main_format_bytes (-(2 ^ 63) : ℤ).natAbs
       else "no change") ∧
    format_size_diff (-(2 ^ 63)) =
      (if (-(2 ^ 63) : ℤ) = -(2 ^ 63) then ansiWrap "32" "-0 B"
       else if 0 < (-(2 ^ 63) : ℤ) then
        ansiWrap "31" ("+" ++ main_format_bytes (-(2 ^ 63) : ℤ).natAbs)
       else if (-(2 ^ 63) : ℤ) < 0 then
        ansiWrap "32" ("-" ++ main_format_bytes (-(2 ^ 63) : ℤ).natAbs)
       else ansiWrap "90" "no change")) :=
  ⟨le_refl _, by decide, format_size_diff_total (-(2 ^ 63)) (le_refl _) (by decide)⟩

/-- Witness for C1 at a concrete pair of builds: the single rows of each
delta list have nonzero delta. -/
theorem delta_lists_elide_zero_and_sorted_witness :
    ({ name := "alpha", old := none, new := some 7, diff := 7 } : ComparativeCrate).diff ≠ 0 ∧
    ({ old := none, new := some { name := "s", total_size := 7, crates := ["alpha"] },
       size_diff := 7 } : ComparativeSymbol).size_diff ≠ 0 ∧
    ({ old := none, new := some { name := "f", total_llvm_lines := 3, crates := ["alpha"] },
       line_diff := 3 } : ComparativeFn).line_diff ≠ 0 :=
  ⟨(delta_lists_elide_zero_and_sorted emptyBuild smallBuild).1.1 _ (by decide),
    (delta_lists_elide_zero_and_sorted emptyBuild smallBuild).2.1.1 _ (by decide),
    (delta_lists_elide_zero_and_sorted emptyBuild smallBuild).2.2.1 _ (by decide)⟩

/-- Witness for C4 at a concrete pair of builds exceeding the table limits:
the excluded rows have absolute delta at most that of the detailed rows. -/
theorem table_truncation_witness :
    ({ name := "c01", old := none, new := some 1, diff := 1 } : ComparativeCrate).diff.natAbs ≤
      ({ name := "c02", old := none, new := some 2, diff := 2 } : ComparativeCrate).diff.natAbs ∧
    ({ old := none, new := some { name := "s01", total_size := 1, crates := [] },
       size_diff := 1 } : ComparativeSymbol).size_diff.natAbs ≤
      ({ old := none, new := some { name := "s02", total_size := 2, crates := [] },
         size_diff := 2 } : ComparativeSymbol).size_diff.natAbs ∧
    ({ old := none, new := some { name := "f01", total_llvm_lines := 1, crates := [] },
       line_diff := 1 } : ComparativeFn).line_diff.natAbs ≤
      ({ old := none, new := some { name := "f02", total_llvm_lines := 2, crates := [] },
         line_diff := 2 } : ComparativeFn).line_diff.natAbs :=
  ⟨(table_truncation emptyBuild largeBuild).1.2.2.1 _ (by decide) _ (by decide),
    (table_truncation emptyBuild largeBuild).2.1.2.2.1 _ (by decide) _ (by decide),
    (table_truncation emptyBuild largeBuild).2.2.2.2.1 _ (by decide) _ (by decide)⟩

end Limpid
